import Mathlib

/-! # Browser client of the card game: `static/js/game.js` and `static/js/animation.js`

A shallow embedding of the two scripts.

* `GameClient` (game.js): the presentation controller.  The object's fields, the
  messages it has emitted on the socket and the part of the page it reads and writes
  are one record; every method is a function on that record.  A method returns
  `none` when it throws a TypeError (a property read on `null` or `undefined`).
* `GameAnimations` (animation.js): the serial animation queue.  `queueAnimation` and
  `processAnimationQueue` are functions on the object's two fields plus the event
  loop's bookkeeping: which activations of `processAnimationQueue` are suspended at
  `await func()`, the clock, and a time-stamped trace of what happened.
-/

/-! ## JavaScript values -/

/-- The JavaScript values that occur as ids and scalar fields of a snapshot. -/
inductive JSVal where
  | null
  | undefined
  | bool (b : Bool)
  | num (n : Int)
  | str (s : String)
  deriving DecidableEq, Repr

namespace JSVal

/-- ToBoolean: the value as seen by `if`, `!` and `&&`. -/
def truthy : JSVal → Bool
  | null => false
  | undefined => false
  | bool b => b
  | num n => n != 0
  | str s => s != ""

/-- Strict equality `a === b` (there is no NaN among these values). -/
def strictEq (a b : JSVal) : Bool := decide (a = b)

/-- Conversion to a string, as done by a template literal and by a property key. -/
def toStr : JSVal → String
  | null => "null"
  | undefined => "undefined"
  | bool b => if b then "true" else "false"
  | num n => toString n
  | str s => s

end JSVal

/-! ## Data pushed by the server -/

/-- A card: rank and suit, as rendered. -/
structure Card where
  rank : String
  suit : String
  deriving DecidableEq, Repr

/-- The rows of a player and the cards not yet placed. -/
structure Hand where
  top : List Card
  middle : List Card
  bottom : List Card
  current : List Card
  deriving DecidableEq, Repr

/-- One value of the `players` mapping. -/
structure PlayerView where
  name : String
  score : Int
  time_bank : Int
  hand : Hand
  deriving DecidableEq, Repr

/-- A `game_state` payload.  `players` lists the mapping in the order of
`Object.keys`; `opponent_table` is only tested for presence. -/
structure GameState where
  state : JSVal
  current_player : JSVal
  current_street : JSVal
  players : List (String × PlayerView)
  opponent_table : Option Hand
  deriving DecidableEq, Repr

/-- The value of `this.gameState`: `null` after construction, then whatever the
last `game_state` event carried. -/
inductive Snapshot where
  | null
  | undefined
  | obj (g : GameState)
  deriving DecidableEq, Repr

/-- A message handed to `socket.emit`. -/
inductive Outbound where
  | join_game (player_id : JSVal)
  | player_ready (player_id : JSVal)
  | place_card (player_id : JSVal) (card : Card) (position : String) (index : Nat)
  | chat_message (player_id : JSVal) (message : String)
  deriving DecidableEq, Repr

/-! ## The page -/

/-- The callbacks that `setupEventListeners` registers. -/
inductive Handler where
  | handleDragStart
  | handleDragEnd
  | handleDragOver
  | handleDrop
  | readyClick
  deriving DecidableEq, Repr

/-- A `div.card` element. -/
structure CardElement where
  className : String
  suit : String
  rank : String
  textContent : String
  draggable : Bool
  listeners : List (String × Handler)
  deriving DecidableEq, Repr

/-- A `div.card-slot` element with its optional card child. -/
structure SlotElement where
  className : String
  position : Option String
  card : Option CardElement
  listeners : List (String × Handler)
  deriving DecidableEq, Repr

/-- A `div.player-score` element. -/
structure ScoreElement where
  className : String
  name : String
  score : String
  deriving DecidableEq, Repr

/-- The elements of the page that game.js looks up.  `rows` maps the id of a row
container to its children. -/
structure Document where
  rows : String → List SlotElement
  hand : List CardElement
  scoreBoard : List ScoreElement
  gameStatus : String
  readyDisplay : String
  readyListeners : List (String × Handler)
  timerText : String
  timerDisplay : String

/-- A `GameClient` object together with the socket traffic and the page. -/
structure GameClient where
  playerId : JSVal
  gameState : Snapshot
  emitted : List Outbound
  subscribed : List String
  document : Document

/-! ## game.js: `GameClient` -/

/-- Membership of a class name in a `className` attribute: the attribute is a list of
tokens separated by ASCII whitespace (space, tab, line feed, form feed, carriage
return). -/
def hasClass (className cls : String) : Bool :=
  (className.split fun ch => ch.isWhitespace || ch = Char.ofNat 12).contains cls

/-- The names every plain object inherits from `Object.prototype`. -/
def objectPrototypeMembers : List String :=
  ["constructor", "hasOwnProperty", "isPrototypeOf", "propertyIsEnumerable", "toLocaleString",
   "toString", "valueOf", "__proto__", "__defineGetter__", "__defineSetter__",
   "__lookupGetter__", "__lookupSetter__"]

/-- The value of a property access `players[key]` on the player mapping, a plain
object: an own entry, a member inherited from `Object.prototype` (a function, or the
prototype object itself for `__proto__`: truthy, and without `hand`, `name`, `score` or
`time_bank`), or `undefined`. -/
inductive PlayerProperty where
  | own (player : PlayerView)
  | inherited
  | undefined
  deriving DecidableEq, Repr

/-- Property access `players[key]`: own entries first, then the prototype. -/
def getPlayer (players : List (String × PlayerView)) (key : String) : PlayerProperty :=
  match players.lookup key with
  | some player => PlayerProperty.own player
  | none =>
    if objectPrototypeMembers.contains key then PlayerProperty.inherited
    else PlayerProperty.undefined

/-- The row of a hand selected by `hand[position]`. -/
def Hand.row (h : Hand) (position : String) : List Card :=
  if position = "top" then h.top
  else if position = "middle" then h.middle
  else if position = "bottom" then h.bottom
  else []

namespace GameClient

/-- Lines 10-27: the four `socket.on` subscriptions. -/
def setupSocketHandlers (c : GameClient) : GameClient :=
  { c with subscribed := c.subscribed ++ ["connect", "game_state", "error", "chat_message"] }

/-- Lines 31-34, for one element: the callback of `querySelectorAll('.card').forEach`. -/
def addCardListeners (el : CardElement) : CardElement :=
  if hasClass el.className "card" then
    { el with listeners := el.listeners ++
        [("dragstart", Handler.handleDragStart), ("dragend", Handler.handleDragEnd)] }
  else el

/-- Lines 36-39, for one element: the callback of `querySelectorAll('.card-slot').forEach`. -/
def addSlotListeners (el : SlotElement) : SlotElement :=
  if hasClass el.className "card-slot" then
    { el with listeners := el.listeners ++
        [("dragover", Handler.handleDragOver), ("drop", Handler.handleDrop)] }
  else el

/-- Lines 29-45: every call adds fresh callbacks (each `bind` and each arrow function is
a new function object, so `addEventListener` never recognises a duplicate). -/
def setupEventListeners (c : GameClient) : GameClient :=
  let d := c.document
  { c with document :=
    { d with
      hand := d.hand.map addCardListeners
      rows := fun id => (d.rows id).map fun sl =>
        addSlotListeners { sl with card := sl.card.map addCardListeners }
      readyListeners := d.readyListeners ++ [("click", Handler.readyClick)] } }

/-- Lines 2-8: `new GameClient()` on a page. -/
def new (document : Document) : GameClient :=
  setupEventListeners (setupSocketHandlers
    { playerId := JSVal.null, gameState := Snapshot.null, emitted := [], subscribed := [],
      document := document })

/-- Lines 86-90: the value of
`this.gameState && this.gameState.current_player === this.playerId && [...].includes(this.gameState.state)`. -/
def canMove (c : GameClient) : JSVal :=
  match c.gameState with
  | Snapshot.null => JSVal.null
  | Snapshot.undefined => JSVal.undefined
  | Snapshot.obj g =>
    JSVal.bool (JSVal.strictEq g.current_player c.playerId &&
      [JSVal.str "playing", JSVal.str "fantasy"].contains g.state)

/-- Lines 174-186. -/
def createCardElement (card : Card) (isOpponent : Bool) : CardElement :=
  { className := "card", suit := card.suit, rank := card.rank,
    textContent := card.rank ++ card.suit, draggable := !isOpponent, listeners := [] }

/-- Lines 100-111.  An inherited member passes the guard of line 104 and has no `hand`,
so `player.hand.current` of line 107 throws. -/
def updateHand (c : GameClient) : Option GameClient :=
  match c.gameState with
  | Snapshot.obj g =>
    match getPlayer g.players c.playerId.toStr with
    | PlayerProperty.undefined => some c
    | PlayerProperty.inherited => none
    | PlayerProperty.own player =>
      some { c with document :=
        { c.document with hand := player.hand.current.map fun card => createCardElement card false } }
  | _ => none

/-- Lines 121-137: the children of an own row after the loop. -/
def ownSlots (cards : List Card) (position : String) : List SlotElement :=
  (List.range (if position = "top" then 3 else 5)).map fun i =>
    { className := "card-slot", position := some position,
      card := (cards.get? i).map fun card => createCardElement card false, listeners := [] }

/-- Lines 157-170: the children of an opponent row after the loop. -/
def opponentSlots (cards : List Card) (position : String) : List SlotElement :=
  (List.range (if position = "top" then 3 else 5)).map fun i =>
    { className := "card-slot", position := none,
      card := (cards.get? i).map fun card => createCardElement card true, listeners := [] }

/-- Lines 146-172.  `opponentId` is one of `Object.keys`, so `players[opponentId]` is
an own entry; for any other value `opponent.hand` of line 164 throws. -/
def updateOpponentTable (c : GameClient) : Option GameClient :=
  match c.gameState with
  | Snapshot.obj g =>
    match (g.players.map Prod.fst).find? fun id => !(JSVal.strictEq (JSVal.str id) c.playerId) with
    | none => some c
    | some opponentId =>
      if opponentId = "" then some c
      else
        match getPlayer g.players opponentId with
        | PlayerProperty.undefined => none
        | PlayerProperty.inherited => none
        | PlayerProperty.own opponent =>
          some { c with document :=
            { c.document with
              rows := ["top", "middle", "bottom"].foldl
                (fun rows position => Function.update rows ("opponent-" ++ position ++ "-row")
                  (opponentSlots (opponent.hand.row position) position))
                c.document.rows } }
  | _ => none

/-- Lines 113-144.  An inherited member passes the guard of line 117 and has no `hand`,
so `player.hand[position]` of line 131 throws. -/
def updateTable (c : GameClient) : Option GameClient :=
  match c.gameState with
  | Snapshot.obj g =>
    match getPlayer g.players c.playerId.toStr with
    | PlayerProperty.undefined => some c
    | PlayerProperty.inherited => none
    | PlayerProperty.own player =>
      let c1 : GameClient := { c with document :=
        { c.document with
          rows := ["top", "middle", "bottom"].foldl
            (fun rows position => Function.update rows (position ++ "-row")
              (ownSlots (player.hand.row position) position))
            c.document.rows } }
      if g.opponent_table.isSome then updateOpponentTable c1 else some c1
  | _ => none

/-- Lines 188-201. -/
def updateScores (c : GameClient) : Option GameClient :=
  match c.gameState with
  | Snapshot.obj g =>
    some { c with document :=
      { c.document with
        scoreBoard := g.players.map fun p =>
          { className := "player-score", name := p.2.name, score := toString p.2.score } } }
  | _ => none

/-- Lines 203-229. -/
def updateGameStatus (c : GameClient) : Option GameClient :=
  match c.gameState with
  | Snapshot.obj g =>
    let d := c.document
    some { c with document :=
      if g.state = JSVal.str "waiting" then
        { d with gameStatus := "Ожидание игроков...", readyDisplay := "block" }
      else if g.state = JSVal.str "playing" then
        { d with gameStatus := "Улица " ++ g.current_street.toStr, readyDisplay := "none" }
      else if g.state = JSVal.str "fantasy" then
        { d with gameStatus := "Фантазия!" }
      else if g.state = JSVal.str "scoring" then
        { d with gameStatus := "Подсчет очков..." }
      else if g.state = JSVal.str "finished" then
        { d with gameStatus := "Игра завершена" }
      else
        { d with gameStatus := "" } }
  | _ => none

/-- Lines 231-241.  An inherited member is truthy and its `time_bank` is `undefined`. -/
def updateTimer (c : GameClient) : Option GameClient :=
  match c.gameState with
  | Snapshot.obj g =>
    match getPlayer g.players c.playerId.toStr with
    | PlayerProperty.own player =>
      if c.canMove.truthy then
        some { c with document :=
          { c.document with
            timerText := "Время: " ++ toString player.time_bank ++ "с", timerDisplay := "block" } }
      else some { c with document := { c.document with timerDisplay := "none" } }
    | PlayerProperty.inherited =>
      if c.canMove.truthy then
        some { c with document :=
          { c.document with
            timerText := "Время: " ++ JSVal.undefined.toStr ++ "с", timerDisplay := "block" } }
      else some { c with document := { c.document with timerDisplay := "none" } }
    | PlayerProperty.undefined =>
      some { c with document := { c.document with timerDisplay := "none" } }
  | _ => none

/-- Lines 92-98. -/
def updateUI (c : GameClient) : Option GameClient :=
  (((updateHand c).bind updateTable).bind updateScores).bind updateGameStatus |>.bind updateTimer

/-- Lines 15-18: the `game_state` subscription. -/
def onGameState (c : GameClient) (state : Snapshot) : Option GameClient :=
  updateUI { c with gameState := state }

/-- Lines 262-266. -/
def init (c : GameClient) (playerId : JSVal) : GameClient :=
  let c1 := setupEventListeners { c with playerId := playerId }
  { c1 with emitted := c1.emitted ++ [Outbound.join_game playerId] }

/-- Lines 270-274: the `DOMContentLoaded` callback; `playerId` is
`document.body.dataset.playerId`. -/
def onDOMContentLoaded (document : Document) (playerId : JSVal) : GameClient :=
  init (new document) playerId

/-- Lines 42-44: what a registered callback does when it is run for a click.  Only the
arrow function of the ready button is a click callback; the drag callbacks are
registered for drag events only and a click does not run them. -/
def runClick (c : GameClient) : Handler → GameClient
  | Handler.readyClick => { c with emitted := c.emitted ++ [Outbound.player_ready c.playerId] }
  | _ => c

/-- Dispatch of one click on `#ready-btn`: its click listeners run in registration order. -/
def clickReady (c : GameClient) : GameClient :=
  (c.document.readyListeners.filter fun l => l.1 = "click").foldl (fun c l => runClick c l.2) c

end GameClient

/-! ## animation.js: the serial queue of `GameAnimations` -/

/-- The record `{ func, resolve }` pushed by `queueAnimation`.  `func` names the
animation function that was passed in; `resolve` numbers the promise returned to that
caller (promises are numbered in the order of the `queueAnimation` calls). -/
structure QueueEntry where
  func : Nat
  resolve : Nat
  deriving DecidableEq, Repr

/-- What can be observed of the queue. -/
inductive Ev where
  /-- The entry was pushed by `queueAnimation`. -/
  | enqueued (e : QueueEntry)
  /-- A `processAnimationQueue` call shifted the entry and called `func()`. -/
  | started (e : QueueEntry)
  /-- The promise awaited at `await func()` was fulfilled. -/
  | completed (e : QueueEntry)
  /-- The call `resolve()` of line 136 for the entry. -/
  | resolved (e : QueueEntry)
  /-- The call `func()` threw, or the promise awaited at `await func()` was rejected. -/
  | threw (e : QueueEntry)
  /-- A `processAnimationQueue` call found the queue empty (lines 128-131). -/
  | foundEmpty
  deriving DecidableEq, Repr

/-- A `GameAnimations` object (`animationQueue`, `isAnimating`) together with the
event loop around it: `awaiting` holds the entries of the `processAnimationQueue`
activations suspended at `await func()`, `promises` counts the promises created by
`queueAnimation`, `now` is the clock in milliseconds and `trace` the events so far,
oldest first, each with the time at which it happened. -/
structure GameAnimations where
  animationQueue : List QueueEntry
  isAnimating : Bool
  awaiting : List QueueEntry
  promises : Nat
  now : Nat
  trace : List (Nat × Ev)
  deriving DecidableEq, Repr

/-- What happens to a `GameAnimations` object from outside. -/
inductive QueueAction where
  /-- A call `queueAnimation(func)`: from top level, or from inside a running task.
  The body of `func()` runs after line 133 and the `shift` of line 134, so a call made
  from it sees the state that `processAnimationQueue` leaves below: the flag set and the
  entry taken off the queue. -/
  | enqueue (func : Nat)
  /-- The promise awaited for the entry with this `resolve` number is fulfilled. -/
  | settle (resolve : Nat)
  /-- The task of the entry with this `resolve` number throws or its promise is rejected. -/
  | reject (resolve : Nat)
  /-- Time passes. -/
  | advance (ms : Nat)
  deriving DecidableEq, Repr

namespace GameAnimations

/-- Lines 2-5. -/
def new : GameAnimations :=
  { animationQueue := [], isAnimating := false, awaiting := [], promises := 0, now := 0,
    trace := [] }

/-- Lines 127-135, up to the suspension at `await func()`.  The activation that is
suspended is added to `awaiting`, whatever is suspended already. -/
def processAnimationQueue (s : GameAnimations) : GameAnimations :=
  match s.animationQueue with
  | [] => { s with isAnimating := false, trace := s.trace ++ [(s.now, Ev.foundEmpty)] }
  | e :: rest =>
    { s with
      isAnimating := true
      animationQueue := rest
      awaiting := s.awaiting ++ [e]
      trace := s.trace ++ [(s.now, Ev.started e)] }

/-- Lines 118-125: the executor of the returned promise runs at once. -/
def queueAnimation (s : GameAnimations) (animationFunction : Nat) : GameAnimations :=
  let e : QueueEntry := { func := animationFunction, resolve := s.promises }
  let s1 : GameAnimations :=
    { s with
      animationQueue := s.animationQueue ++ [e]
      promises := s.promises + 1
      trace := s.trace ++ [(s.now, Ev.enqueued e)] }
  if !s1.isAnimating then processAnimationQueue s1 else s1

/-- Lines 136-137: the activation suspended on the entry resumes after its `await`. -/
def resume (s : GameAnimations) (e : QueueEntry) : GameAnimations :=
  processAnimationQueue
    { s with
      awaiting := s.awaiting.erase e
      trace := s.trace ++ [(s.now, Ev.completed e), (s.now, Ev.resolved e)] }

/-- The activation suspended on the entry ends with a rejection: lines 136-137 never
run for it. -/
def abandon (s : GameAnimations) (e : QueueEntry) : GameAnimations :=
  { s with awaiting := s.awaiting.erase e, trace := s.trace ++ [(s.now, Ev.threw e)] }

/-- One action.  A `settle` or `reject` for a promise nobody awaits changes nothing. -/
def step (s : GameAnimations) : QueueAction → GameAnimations
  | QueueAction.enqueue f => queueAnimation s f
  | QueueAction.settle r =>
    match s.awaiting.find? fun e => e.resolve = r with
    | some e => resume s e
    | none => s
  | QueueAction.reject r =>
    match s.awaiting.find? fun e => e.resolve = r with
    | some e => abandon s e
    | none => s
  | QueueAction.advance ms => { s with now := s.now + ms }

/-- A sequence of actions, from a given state. -/
def run (s : GameAnimations) (as : List QueueAction) : GameAnimations :=
  as.foldl step s

/-- The awaited promise of every task that gets started is fulfilled: the head of
`awaiting` is settled, up to `fuel` times. -/
def drain : Nat → GameAnimations → GameAnimations
  | 0, s => s
  | fuel + 1, s =>
    match s.awaiting with
    | [] => s
    | e :: _ => drain fuel (step s (QueueAction.settle e.resolve))

/-- The event loop when the effect of task `f` lasts `dur f` milliseconds: the clock
moves on by the duration of the task that was just started, then its promise is
fulfilled; up to `fuel` times. -/
def drainTimed (dur : Nat → Nat) : Nat → GameAnimations → GameAnimations
  | 0, s => s
  | fuel + 1, s =>
    match s.awaiting with
    | [] => s
    | e :: _ =>
      drainTimed dur fuel (step (step s (QueueAction.advance (dur e.func))) (QueueAction.settle e.resolve))

/-! ### Projections of a trace -/

/-- The entries pushed, in order. -/
def enqueuedOf (tr : List (Nat × Ev)) : List QueueEntry :=
  tr.filterMap fun x => match x.2 with | Ev.enqueued e => some e | _ => none

/-- The entries started, in order. -/
def startedOf (tr : List (Nat × Ev)) : List QueueEntry :=
  tr.filterMap fun x => match x.2 with | Ev.started e => some e | _ => none

/-- The entries whose task completed, in order. -/
def completedOf (tr : List (Nat × Ev)) : List QueueEntry :=
  tr.filterMap fun x => match x.2 with | Ev.completed e => some e | _ => none

/-- The entries whose promise was resolved, in order. -/
def resolvedOf (tr : List (Nat × Ev)) : List QueueEntry :=
  tr.filterMap fun x => match x.2 with | Ev.resolved e => some e | _ => none

/-- The entries whose task threw, in order. -/
def threwOf (tr : List (Nat × Ev)) : List QueueEntry :=
  tr.filterMap fun x => match x.2 with | Ev.threw e => some e | _ => none

/-- The calls of `processAnimationQueue`, in order: each one either starts an entry or
finds the queue empty. -/
def processCallsOf (tr : List (Nat × Ev)) : List (Nat × Ev) :=
  tr.filter fun x => match x.2 with | Ev.started _ => true | Ev.foundEmpty => true | _ => false

/-- The times at which entries were started. -/
def startTimes (tr : List (Nat × Ev)) : List (QueueEntry × Nat) :=
  tr.filterMap fun x => match x.2 with | Ev.started e => some (e, x.1) | _ => none

/-- The times at which promises were resolved. -/
def resolveTimes (tr : List (Nat × Ev)) : List (QueueEntry × Nat) :=
  tr.filterMap fun x => match x.2 with | Ev.resolved e => some (e, x.1) | _ => none

end GameAnimations

/-! ### The three situations of the queue -/

namespace GameAnimations

/-- Nothing runs and nothing waits: every started task has completed. -/
@[reducible]
def Idle (s : GameAnimations) : Prop :=
  s.isAnimating = false ∧ s.awaiting = [] ∧ s.animationQueue = [] ∧
    startedOf s.trace = completedOf s.trace ∧ threwOf s.trace = []

/-- One activation is suspended on `e`; every task started before `e` has completed. -/
@[reducible]
def Busy (s : GameAnimations) (e : QueueEntry) : Prop :=
  s.isAnimating = true ∧ s.awaiting = [e] ∧
    startedOf s.trace = completedOf s.trace ++ [e] ∧ threwOf s.trace = []

/-- The task of `e` threw: the flag is still set and no activation is left. -/
@[reducible]
def Stalled (s : GameAnimations) (e : QueueEntry) : Prop :=
  s.isAnimating = true ∧ s.awaiting = [] ∧
    startedOf s.trace = completedOf s.trace ++ [e] ∧ threwOf s.trace = [e]

/-- The invariant of the queue: the pushed entries are the started ones followed by the
pending ones, promises are resolved exactly for the completed tasks, the promises are
numbered in push order, and the queue is idle, busy or stalled. -/
def Inv (s : GameAnimations) : Prop :=
  enqueuedOf s.trace = startedOf s.trace ++ s.animationQueue ∧
    resolvedOf s.trace = completedOf s.trace ∧
    (enqueuedOf s.trace).map (fun e => e.resolve) = List.range s.promises ∧
    (Idle s ∨ (∃ e, Busy s e) ∨ ∃ e, Stalled s e)

/-- In a trace, a task is started only when every task started before it has completed. -/
def StartsInTurn (tr : List (Nat × Ev)) : Prop :=
  ∀ pre t e post, tr = pre ++ (t, Ev.started e) :: post → startedOf pre = completedOf pre

/-- In a trace, a promise is resolved only right after the completion of its own task,
at the same instant. -/
def ResolvedByOwn (tr : List (Nat × Ev)) : Prop :=
  ∀ pre t e post, tr = pre ++ (t, Ev.resolved e) :: post →
    ∃ pre1, pre = pre1 ++ [(t, Ev.completed e)]

/-- In a trace, some task was started and no later `processAnimationQueue` call found
the queue empty. -/
def StartedSinceEmpty (tr : List (Nat × Ev)) : Prop :=
  ∃ pre t e post, tr = pre ++ (t, Ev.started e) :: post ∧ ∀ x ∈ post, x.2 ≠ Ev.foundEmpty

/-- The entries that successive `queueAnimation` calls with the functions `fs` push when
`n` promises exist already. -/
def entriesFrom : Nat → List Nat → List QueueEntry
  | _, [] => []
  | n, f :: fs => { func := f, resolve := n } :: entriesFrom (n + 1) fs

/-- The start times of the entries `es` when the first is started at time `t`, each is
started when the one before it ends, and the task `f` lasts `dur f`. -/
def startsFrom (dur : Nat → Nat) : Nat → List QueueEntry → List (QueueEntry × Nat)
  | _, [] => []
  | t, e :: es => (e, t) :: startsFrom dur (t + dur e.func) es

/-- The end times of the entries `es` under the same schedule. -/
def endsFrom (dur : Nat → Nat) : Nat → List QueueEntry → List (QueueEntry × Nat)
  | _, [] => []
  | t, e :: es => (e, t + dur e.func) :: endsFrom dur (t + dur e.func) es

end GameAnimations

/-! ## Concrete pages and snapshots -/

/-- A page whose regions are all empty and whose ready button has no listener yet. -/
def blankPage : Document :=
  { rows := fun _ => [], hand := [], scoreBoard := [], gameStatus := "", readyDisplay := "",
    readyListeners := [], timerText := "", timerDisplay := "" }

/-- A player with one card in the top row and two in the middle row. -/
def samplePlayer (name : String) : PlayerView :=
  { name := name, score := 0, time_bank := 30,
    hand := { top := [{ rank := "A", suit := "♠" }],
              middle := [{ rank := "K", suit := "♥" }, { rank := "7", suit := "♦" }],
              bottom := [], current := [] } }

/-- A snapshot with the given status, player mapping and optional opponent board. -/
def sampleState (state : String) (players : List (String × PlayerView))
    (opponent_table : Option Hand) : GameState :=
  { state := JSVal.str state, current_player := JSVal.str "alice",
    current_street := JSVal.num 1, players := players, opponent_table := opponent_table }

/-- The client of player "alice" on the blank page, holding the given snapshot. -/
def sampleClient (g : GameState) : GameClient :=
  { playerId := JSVal.str "alice", gameState := Snapshot.obj g, emitted := [], subscribed := [],
    document := blankPage }

/-! ## Theorems about `GameClient` -/

/-- C1 fails as stated: in the state the constructor leaves (`gameState` is `null`)
`canMove()` returns `null`, which is not `false`. -/
theorem GameClient.canMove_after_new :
    GameClient.canMove (GameClient.new blankPage) = JSVal.null ∧
    GameClient.canMove (GameClient.new blankPage) ≠ JSVal.bool false := by
  constructor
  · rfl
  · decide

/-- C1, amended: `canMove()` returns `true` exactly when a snapshot object is present,
its status is 'playing' or 'fantasy', and its current-player id is strictly equal to the
local `playerId`, and this is the only case in which its result is truthy; for a
snapshot object in any other combination it returns `false`; for a `null` snapshot it
returns `null` and for an `undefined` one `undefined`. -/
theorem GameClient.canMove_value (c : GameClient) (g : GameState) :
    (c.canMove = JSVal.bool true ↔
      ∃ g1, c.gameState = Snapshot.obj g1 ∧
        (g1.state = JSVal.str "playing" ∨ g1.state = JSVal.str "fantasy") ∧
        g1.current_player = c.playerId) ∧
    (c.canMove.truthy = true ↔ c.canMove = JSVal.bool true) ∧
    GameClient.canMove { c with gameState := Snapshot.obj g }
      = JSVal.bool (decide ((g.state = JSVal.str "playing" ∨ g.state = JSVal.str "fantasy") ∧
          g.current_player = c.playerId)) ∧
    GameClient.canMove { c with gameState := Snapshot.null } = JSVal.null ∧
    GameClient.canMove { c with gameState := Snapshot.undefined } = JSVal.undefined := by
  refine ⟨?_, ?_, ?_, rfl, rfl⟩
  · unfold GameClient.canMove
    cases hg : c.gameState with
    | null => simp
    | undefined => simp
    | obj g1 =>
      simp only [JSVal.strictEq, Snapshot.obj.injEq, exists_eq_left', JSVal.bool.injEq,
        Bool.and_eq_true, decide_eq_true_eq, List.contains_cons, List.contains_nil,
        Bool.or_false, Bool.or_eq_true, beq_iff_eq]
      constructor
      · rintro ⟨h1, h2⟩
        exact ⟨h2, h1⟩
      · rintro ⟨h2, h1⟩
        exact ⟨h1, h2⟩
  · unfold GameClient.canMove
    cases c.gameState with
    | null => simp [JSVal.truthy]
    | undefined => simp [JSVal.truthy]
    | obj g1 => simp [JSVal.truthy]
  · unfold GameClient.canMove
    simp only [JSVal.strictEq, JSVal.bool.injEq, List.contains_cons, List.contains_nil,
      Bool.or_false]
    by_cases h1 : g.current_player = c.playerId <;>
      by_cases h2 : g.state = JSVal.str "playing" <;>
      by_cases h3 : g.state = JSVal.str "fantasy" <;>
      simp [h1, h2, h3]

/-- C8 fails as stated: a 'waiting' snapshot followed by a 'finished' snapshot leaves
the ready button displayed ('block'), with the finished message as status text. -/
theorem GameClient.updateGameStatus_finished_after_waiting :
    ((GameClient.updateGameStatus (sampleClient (sampleState "waiting" [] none))).bind fun c =>
        (GameClient.updateGameStatus
          { c with gameState := Snapshot.obj (sampleState "finished" [] none) })).map
      (fun c => (c.document.gameStatus, c.document.readyDisplay))
      = some ("Игра завершена", "block") := by
  decide

/-- C8, amended: for every snapshot with status 'waiting' the render sets the waiting
message and displays the ready button; for every snapshot with status 'finished' it sets
the finished message and leaves the display of the ready button as it was. -/
theorem GameClient.updateGameStatus_waiting_finished (c : GameClient) (g : GameState) :
    (GameClient.updateGameStatus
        { c with gameState := Snapshot.obj { g with state := JSVal.str "waiting" } }).map
      (fun c1 => (c1.document.gameStatus, c1.document.readyDisplay))
      = some ("Ожидание игроков...", "block") ∧
    (GameClient.updateGameStatus
        { c with gameState := Snapshot.obj { g with state := JSVal.str "finished" } }).map
      (fun c1 => (c1.document.gameStatus, c1.document.readyDisplay))
      = some ("Игра завершена", c.document.readyDisplay) := by
  constructor
  · simp [GameClient.updateGameStatus]
  · simp [GameClient.updateGameStatus]

/-! ### Rendering of the opponent rows -/

theorem lookup_of_find_key {β : Type} (l : List (String × β)) (p : String → Bool)
    (k : String) (h : (l.map Prod.fst).find? p = some k) : ∃ v, l.lookup k = some v := by
  have hk : k ∈ l.map Prod.fst := List.mem_of_find?_eq_some h
  clear h
  induction l with
  | nil => simp at hk
  | cons a l ih =>
    obtain ⟨a1, a2⟩ := a
    by_cases hka : k = a1
    · subst hka
      exact ⟨a2, by simp [List.lookup]⟩
    · have hk2 : k ∈ l.map Prod.fst := by
        simp only [List.map_cons, List.mem_cons] at hk
        rcases hk with h | h
        · exact absurd h hka
        · exact h
      obtain ⟨v, hv⟩ := ih hk2
      refine ⟨v, ?_⟩
      have : (k == a1) = false := by simpa using hka
      simp [List.lookup, this, hv]

theorem GameClient.opponentSlots_length (cards : List Card) (position : String) :
    (GameClient.opponentSlots cards position).length = if position = "top" then 3 else 5 := by
  simp [GameClient.opponentSlots]

theorem GameClient.opponentSlots_card (cards : List Card) (position : String) (i : Nat)
    (hi : i < if position = "top" then 3 else 5) :
    ((GameClient.opponentSlots cards position).get? i).map (fun sl => sl.card)
      = some ((cards.get? i).map fun card => GameClient.createCardElement card true) := by
  simp [GameClient.opponentSlots, List.getElem?_map, List.getElem?_range hi]

theorem GameClient.updateOpponentTable_rows (c : GameClient) (g : GameState) (position : String)
    (hc : c.gameState = Snapshot.obj g) (hpos : position ∈ ["top", "middle", "bottom"]) :
    ∃ c1, GameClient.updateOpponentTable c = some c1 ∧
      c1.gameState = c.gameState ∧ c1.playerId = c.playerId ∧
      (∀ position1, position1 ∈ ["top", "middle", "bottom"] →
        c1.document.rows (position1 ++ "-row") = c.document.rows (position1 ++ "-row")) ∧
      c1.document.hand = c.document.hand ∧
      (((g.players.map Prod.fst).find? fun id => !(JSVal.strictEq (JSVal.str id) c.playerId)) = none →
        c1 = c) ∧
      (((g.players.map Prod.fst).find? fun id => !(JSVal.strictEq (JSVal.str id) c.playerId)) = some "" →
        c1 = c) ∧
      (∀ oid, ((g.players.map Prod.fst).find? fun id =>
            !(JSVal.strictEq (JSVal.str id) c.playerId)) = some oid → oid ≠ "" →
        ∃ opponent, g.players.lookup oid = some opponent ∧
          c1.document.rows ("opponent-" ++ position ++ "-row")
            = GameClient.opponentSlots (opponent.hand.row position) position) := by
  unfold GameClient.updateOpponentTable
  rw [hc]
  dsimp only
  cases hf : (g.players.map Prod.fst).find? fun id => !(JSVal.strictEq (JSVal.str id) c.playerId) with
  | none => exact ⟨c, rfl, hc.symm ▸ rfl, rfl, fun _ _ => rfl, rfl, fun _ => rfl, fun h => by simp at h,
      fun oid h => by simp at h⟩
  | some oid =>
    dsimp only
    by_cases hoid : oid = ""
    · subst hoid
      refine ⟨c, by simp, hc.symm ▸ rfl, rfl, fun _ _ => rfl, rfl, fun _ => rfl, fun _ => rfl, ?_⟩
      intro oid h hne
      simp only [Option.some.injEq] at h
      exact absurd h.symm hne
    · obtain ⟨opponent, hopp⟩ := lookup_of_find_key g.players _ oid hf
      have hgp : getPlayer g.players oid = PlayerProperty.own opponent := by
        simp [getPlayer, hopp]
      rw [if_neg hoid, hgp]
      refine ⟨_, rfl, hc.symm ▸ rfl, rfl, ?_, rfl, fun h => by simp at h, ?_, ?_⟩
      · intro position1 h1
        simp only [List.mem_cons, List.mem_singleton, List.not_mem_nil, or_false] at h1
        rcases h1 with rfl | rfl | rfl <;>
          simp [List.foldl, Function.update_apply]
      · intro h
        simp only [Option.some.injEq] at h
        exact absurd h hoid
      · intro oid1 h1 _
        simp only [Option.some.injEq] at h1
        subst h1
        refine ⟨opponent, hopp, ?_⟩
        simp only [List.mem_cons, List.mem_singleton, List.not_mem_nil, or_false] at hpos
        rcases hpos with rfl | rfl | rfl <;>
          simp [List.foldl, Function.update_apply]

theorem GameClient.updateHand_frame (c : GameClient) (g : GameState)
    (hc : c.gameState = Snapshot.obj g)
    (hni : getPlayer g.players c.playerId.toStr ≠ PlayerProperty.inherited) :
    ∃ c1, GameClient.updateHand c = some c1 ∧ c1.gameState = c.gameState ∧
      c1.playerId = c.playerId ∧ c1.document.rows = c.document.rows := by
  unfold GameClient.updateHand
  rw [hc]
  dsimp only
  cases hme : getPlayer g.players c.playerId.toStr with
  | undefined => exact ⟨c, rfl, hc.symm ▸ rfl, rfl, rfl⟩
  | inherited => exact absurd hme hni
  | own player => exact ⟨_, rfl, hc.symm ▸ rfl, rfl, rfl⟩

theorem GameClient.updateScores_frame (c : GameClient) (g : GameState)
    (hc : c.gameState = Snapshot.obj g) :
    ∃ c1, GameClient.updateScores c = some c1 ∧ c1.gameState = c.gameState ∧
      c1.playerId = c.playerId ∧ c1.document.rows = c.document.rows := by
  unfold GameClient.updateScores
  rw [hc]
  exact ⟨_, rfl, hc.symm ▸ rfl, rfl, rfl⟩

theorem GameClient.updateGameStatus_frame (c : GameClient) (g : GameState)
    (hc : c.gameState = Snapshot.obj g) :
    ∃ c1, GameClient.updateGameStatus c = some c1 ∧ c1.gameState = c.gameState ∧
      c1.playerId = c.playerId ∧ c1.document.rows = c.document.rows := by
  unfold GameClient.updateGameStatus
  rw [hc]
  refine ⟨_, rfl, hc.symm ▸ rfl, rfl, ?_⟩
  dsimp only
  split_ifs <;> rfl

theorem GameClient.updateTimer_frame (c : GameClient) (g : GameState)
    (hc : c.gameState = Snapshot.obj g) :
    ∃ c1, GameClient.updateTimer c = some c1 ∧ c1.gameState = c.gameState ∧
      c1.playerId = c.playerId ∧ c1.document.rows = c.document.rows := by
  unfold GameClient.updateTimer
  rw [hc]
  dsimp only
  cases getPlayer g.players c.playerId.toStr with
  | undefined => exact ⟨_, rfl, hc.symm ▸ rfl, rfl, rfl⟩
  | inherited =>
    dsimp only
    split_ifs
    · exact ⟨_, rfl, hc.symm ▸ rfl, rfl, rfl⟩
    · exact ⟨_, rfl, hc.symm ▸ rfl, rfl, rfl⟩
  | own player =>
    dsimp only
    split_ifs
    · exact ⟨_, rfl, hc.symm ▸ rfl, rfl, rfl⟩
    · exact ⟨_, rfl, hc.symm ▸ rfl, rfl, rfl⟩

theorem GameClient.updateTable_opponent_rows (c : GameClient) (g : GameState) (position : String)
    (hc : c.gameState = Snapshot.obj g) (hpos : position ∈ ["top", "middle", "bottom"])
    (hni : getPlayer g.players c.playerId.toStr ≠ PlayerProperty.inherited) :
    ∃ c1, GameClient.updateTable c = some c1 ∧
      c1.gameState = c.gameState ∧ c1.playerId = c.playerId ∧
      (g.opponent_table = none →
        c1.document.rows ("opponent-" ++ position ++ "-row")
          = c.document.rows ("opponent-" ++ position ++ "-row")) ∧
      (getPlayer g.players c.playerId.toStr = PlayerProperty.undefined →
        c1.document.rows ("opponent-" ++ position ++ "-row")
          = c.document.rows ("opponent-" ++ position ++ "-row")) ∧
      (((g.players.map Prod.fst).find? fun id => !(JSVal.strictEq (JSVal.str id) c.playerId)) = none ∨
        ((g.players.map Prod.fst).find? fun id => !(JSVal.strictEq (JSVal.str id) c.playerId)) = some "" →
        c1.document.rows ("opponent-" ++ position ++ "-row")
          = c.document.rows ("opponent-" ++ position ++ "-row")) ∧
      (∀ player oid, g.opponent_table.isSome = true →
        getPlayer g.players c.playerId.toStr = PlayerProperty.own player →
        ((g.players.map Prod.fst).find? fun id =>
            !(JSVal.strictEq (JSVal.str id) c.playerId)) = some oid → oid ≠ "" →
        ∃ opponent, g.players.lookup oid = some opponent ∧
          c1.document.rows ("opponent-" ++ position ++ "-row")
            = GameClient.opponentSlots (opponent.hand.row position) position) := by
  have hown : ∀ (rows : String → List SlotElement) (h : Hand),
      (["top", "middle", "bottom"].foldl
          (fun rows position1 => Function.update rows (position1 ++ "-row")
            (GameClient.ownSlots (h.row position1) position1)) rows)
        ("opponent-" ++ position ++ "-row") = rows ("opponent-" ++ position ++ "-row") := by
    intro rows h
    simp only [List.mem_cons, List.mem_singleton, List.not_mem_nil, or_false] at hpos
    rcases hpos with rfl | rfl | rfl <;>
      simp [List.foldl, Function.update_apply]
  obtain ⟨pid, gs, em, sub, doc⟩ := c
  dsimp only at hc hni
  subst hc
  unfold GameClient.updateTable
  dsimp only
  cases hme : getPlayer g.players pid.toStr with
  | undefined =>
    refine ⟨_, rfl, rfl, rfl, fun _ => rfl, fun _ => rfl, fun _ => rfl, ?_⟩
    intro player oid _ h
    simp at h
  | inherited => exact absurd hme hni
  | own player =>
    dsimp only
    cases hot : g.opponent_table with
    | none =>
      refine ⟨_, by simp; rfl, rfl, rfl, fun _ => hown doc.rows player.hand,
        fun _ => hown doc.rows player.hand, fun _ => hown doc.rows player.hand, ?_⟩
      intro player oid h
      simp at h
    | some t =>
      obtain ⟨c1, h1, hg1, hp1, _, _, hnone, hempty, hsome⟩ :=
        GameClient.updateOpponentTable_rows
          { playerId := pid, gameState := Snapshot.obj g, emitted := em, subscribed := sub,
            document :=
            { doc with
              rows := ["top", "middle", "bottom"].foldl
                (fun rows position1 => Function.update rows (position1 ++ "-row")
                  (GameClient.ownSlots (player.hand.row position1) position1))
                doc.rows } } g position rfl hpos
      refine ⟨c1, by simpa using h1, hg1, hp1, fun h => by simp at h, fun h => by simp at h, ?_, ?_⟩
      · rintro (h | h)
        · rw [hnone h]
          exact hown doc.rows player.hand
        · rw [hempty h]
          exact hown doc.rows player.hand
      · intro player1 oid _ _ hfind hne
        exact hsome oid hfind hne

/-- A local player id that names a member of `Object.prototype` and is no own key passes
the guards of lines 104 and 117, and the renderers throw. -/
theorem GameClient.render_inherited_id_throws :
    GameClient.updateUI { sampleClient (sampleState "playing" [("bob", samplePlayer "Bob")] none)
      with playerId := JSVal.str "constructor" } = none ∧
    GameClient.updateTable { sampleClient (sampleState "playing" [("bob", samplePlayer "Bob")] none)
      with playerId := JSVal.str "constructor" } = none := by
  constructor <;> rfl

/-- C9 fails as stated: with an opponent board in the snapshot but no player other than
the local one in the mapping (first input), or without the local player in the mapping
(second input), the render leaves the opponent rows as they were, here empty. -/
theorem GameClient.updateUI_opponent_rows_untouched :
    ((GameClient.updateUI (sampleClient (sampleState "playing"
        [("alice", samplePlayer "Alice")] (some (samplePlayer "Bob").hand)))).map
      fun c => (c.document.rows "opponent-top-row").length) = some 0 ∧
    ((GameClient.updateUI (sampleClient (sampleState "playing"
        [("bob", samplePlayer "Bob")] (some (samplePlayer "Bob").hand)))).map
      fun c => (c.document.rows "opponent-top-row").length) = some 0 := by
  constructor <;> decide

/-- C9, amended: for a snapshot object whose `players[playerId]` is an own entry or
`undefined` (not a member inherited from `Object.prototype`) and either renderer
(`updateTable`, `updateUI`), the render completes and, for each of the three positions:
when the snapshot has an opponent board, the local player id is a key of the player
mapping and the first key different from the local id exists and is not empty, the
opponent row holds exactly 3 (top) or 5 (middle, bottom) slots, slot `i` showing the
`i`-th card of that player's row if there is one; when the snapshot has no opponent
board, or the local id is no key, or there is no such other key, the opponent row is
left exactly as it was. -/
theorem GameClient.render_opponent_rows (render : GameClient → Option GameClient)
    (c : GameClient) (g : GameState) (position : String)
    (hr : render = GameClient.updateTable ∨ render = GameClient.updateUI)
    (hc : c.gameState = Snapshot.obj g) (hpos : position ∈ ["top", "middle", "bottom"])
    (hni : getPlayer g.players c.playerId.toStr ≠ PlayerProperty.inherited) :
    ∃ c1, render c = some c1 ∧
      (g.opponent_table = none ∨ getPlayer g.players c.playerId.toStr = PlayerProperty.undefined ∨
        ((g.players.map Prod.fst).find? fun id =>
          !(JSVal.strictEq (JSVal.str id) c.playerId)) = none ∨
        ((g.players.map Prod.fst).find? fun id =>
          !(JSVal.strictEq (JSVal.str id) c.playerId)) = some "" →
        c1.document.rows ("opponent-" ++ position ++ "-row")
          = c.document.rows ("opponent-" ++ position ++ "-row")) ∧
      (∀ player oid, g.opponent_table.isSome = true →
        getPlayer g.players c.playerId.toStr = PlayerProperty.own player →
        ((g.players.map Prod.fst).find? fun id =>
            !(JSVal.strictEq (JSVal.str id) c.playerId)) = some oid → oid ≠ "" →
        ∃ opponent, g.players.lookup oid = some opponent ∧
          c1.document.rows ("opponent-" ++ position ++ "-row")
            = GameClient.opponentSlots (opponent.hand.row position) position ∧
          (c1.document.rows ("opponent-" ++ position ++ "-row")).length
            = (if position = "top" then 3 else 5) ∧
          ∀ i, i < (if position = "top" then 3 else 5) →
            ((c1.document.rows ("opponent-" ++ position ++ "-row")).get? i).map (fun sl => sl.card)
              = some (((opponent.hand.row position).get? i).map fun card =>
                  GameClient.createCardElement card true)) := by
  have key : ∀ c0 : GameClient, c0.gameState = Snapshot.obj g → c0.playerId = c.playerId →
      c0.document.rows = c.document.rows →
      ∃ c1, GameClient.updateTable c0 = some c1 ∧ c1.gameState = Snapshot.obj g ∧
        c1.playerId = c.playerId ∧
      (g.opponent_table = none ∨ getPlayer g.players c.playerId.toStr = PlayerProperty.undefined ∨
        ((g.players.map Prod.fst).find? fun id =>
          !(JSVal.strictEq (JSVal.str id) c.playerId)) = none ∨
        ((g.players.map Prod.fst).find? fun id =>
          !(JSVal.strictEq (JSVal.str id) c.playerId)) = some "" →
        c1.document.rows ("opponent-" ++ position ++ "-row")
          = c.document.rows ("opponent-" ++ position ++ "-row")) ∧
      (∀ player oid, g.opponent_table.isSome = true →
        getPlayer g.players c.playerId.toStr = PlayerProperty.own player →
        ((g.players.map Prod.fst).find? fun id =>
            !(JSVal.strictEq (JSVal.str id) c.playerId)) = some oid → oid ≠ "" →
        ∃ opponent, g.players.lookup oid = some opponent ∧
          c1.document.rows ("opponent-" ++ position ++ "-row")
            = GameClient.opponentSlots (opponent.hand.row position) position ∧
          (c1.document.rows ("opponent-" ++ position ++ "-row")).length
            = (if position = "top" then 3 else 5) ∧
          ∀ i, i < (if position = "top" then 3 else 5) →
            ((c1.document.rows ("opponent-" ++ position ++ "-row")).get? i).map (fun sl => sl.card)
              = some (((opponent.hand.row position).get? i).map fun card =>
                  GameClient.createCardElement card true)) := by
    intro c0 hc0 hp0 hrows0
    obtain ⟨c1, h1, hg1, hp1, hA, hB, hC, hD⟩ :=
      GameClient.updateTable_opponent_rows c0 g position hc0 hpos (by rw [hp0]; exact hni)
    rw [hp0] at hB hC hD
    rw [hrows0] at hA hB hC
    refine ⟨c1, h1, hg1.trans hc0, hp1.trans hp0, ?_, ?_⟩
    · rintro (h | h | h)
      · exact hA h
      · exact hB h
      · exact hC h
    · intro player oid h1 h2 h3 h4
      obtain ⟨opponent, ho, hrow⟩ := hD player oid h1 h2 h3 h4
      refine ⟨opponent, ho, hrow, ?_, ?_⟩
      · rw [hrow]
        exact GameClient.opponentSlots_length _ _
      · intro i hi
        rw [hrow]
        exact GameClient.opponentSlots_card _ _ i hi
  rcases hr with rfl | rfl
  · obtain ⟨c1, h1, _, _, hA, hB⟩ := key c hc rfl rfl
    exact ⟨c1, h1, hA, hB⟩
  · obtain ⟨ch, hh, hgh, hph, hrh⟩ := GameClient.updateHand_frame c g hc hni
    obtain ⟨ct, ht, hgt, _, hA, hB⟩ := key ch (hgh.trans hc) hph hrh
    obtain ⟨cs, hs, hgs, _, hrs⟩ := GameClient.updateScores_frame ct g hgt
    obtain ⟨cg, hgg, hgg2, _, hrg⟩ := GameClient.updateGameStatus_frame cs g (hgs.trans hgt)
    obtain ⟨cf, hf, _, _, hrf⟩ :=
      GameClient.updateTimer_frame cg g (hgg2.trans (hgs.trans hgt))
    have hrows : cf.document.rows = ct.document.rows := by
      rw [hrf, hrg, hrs]
    refine ⟨cf, ?_, ?_, ?_⟩
    · simp [GameClient.updateUI, hh, ht, hs, hgg, hf]
    · rw [hrows]
      exact hA
    · rw [hrows]
      exact hB

/-- The amended C9 at a snapshot with two players and an opponent board: the top
opponent row gets three slots, the first showing the opponent's ace. -/
theorem GameClient.render_opponent_rows_witness :
    ∃ c1, GameClient.updateUI (sampleClient (sampleState "playing"
        [("alice", samplePlayer "Alice"), ("bob", samplePlayer "Bob")]
        (some (samplePlayer "Bob").hand))) = some c1 ∧
      (c1.document.rows "opponent-top-row").length = 3 ∧
      ((c1.document.rows "opponent-top-row").get? 0).map (fun sl => sl.card)
        = some (some (GameClient.createCardElement { rank := "A", suit := "♠" } true)) := by
  obtain ⟨c1, h1, _, h3⟩ := GameClient.render_opponent_rows GameClient.updateUI
    (sampleClient (sampleState "playing"
      [("alice", samplePlayer "Alice"), ("bob", samplePlayer "Bob")]
      (some (samplePlayer "Bob").hand)))
    (sampleState "playing" [("alice", samplePlayer "Alice"), ("bob", samplePlayer "Bob")]
      (some (samplePlayer "Bob").hand))
    "top" (Or.inr rfl) rfl (by decide) (by decide)
  obtain ⟨opponent, ho, _, hlen, hcards⟩ :=
    h3 (samplePlayer "Alice") "bob" rfl (by decide) (by decide) (by decide)
  have hopp : opponent = samplePlayer "Bob" := by
    have : (sampleState "playing" [("alice", samplePlayer "Alice"), ("bob", samplePlayer "Bob")]
      (some (samplePlayer "Bob").hand)).players.lookup "bob" = some (samplePlayer "Bob") := by
      decide
    rw [this] at ho
    exact (Option.some.inj ho).symm
  subst hopp
  exact ⟨c1, h1, hlen, hcards 0 (by decide)⟩

/-! ### Page load and the ready button -/

/-- C10 does not hold of the code: after `new GameClient()` and `init(playerId)` on a
page whose ready button had no listener, the button carries two click callbacks (one
registered by the constructor's `setupEventListeners`, one by the call in `init`), so a
single click emits 'player_ready' twice, after the 'join_game' of `init`. -/
theorem GameClient.clickReady_after_page_load (d : Document) (playerId : JSVal) :
    (GameClient.onDOMContentLoaded { d with readyListeners := [] } playerId).document.readyListeners
      = [("click", Handler.readyClick), ("click", Handler.readyClick)] ∧
    (GameClient.clickReady
        (GameClient.onDOMContentLoaded { d with readyListeners := [] } playerId)).emitted
      = [Outbound.join_game playerId, Outbound.player_ready playerId,
         Outbound.player_ready playerId] := by
  constructor
  · rfl
  · simp [GameClient.clickReady, GameClient.onDOMContentLoaded, GameClient.init, GameClient.new,
      GameClient.setupEventListeners, GameClient.setupSocketHandlers, GameClient.runClick,
      List.filter]

/-! ## Theorems about the animation queue -/

namespace GameAnimations

/-! ### Projections and concatenation -/

theorem enqueuedOf_append (a b : List (Nat × Ev)) :
    enqueuedOf (a ++ b) = enqueuedOf a ++ enqueuedOf b := by
  simp [enqueuedOf, List.filterMap_append]

theorem startedOf_append (a b : List (Nat × Ev)) :
    startedOf (a ++ b) = startedOf a ++ startedOf b := by
  simp [startedOf, List.filterMap_append]

theorem completedOf_append (a b : List (Nat × Ev)) :
    completedOf (a ++ b) = completedOf a ++ completedOf b := by
  simp [completedOf, List.filterMap_append]

theorem resolvedOf_append (a b : List (Nat × Ev)) :
    resolvedOf (a ++ b) = resolvedOf a ++ resolvedOf b := by
  simp [resolvedOf, List.filterMap_append]

theorem threwOf_append (a b : List (Nat × Ev)) :
    threwOf (a ++ b) = threwOf a ++ threwOf b := by
  simp [threwOf, List.filterMap_append]

theorem processCallsOf_append (a b : List (Nat × Ev)) :
    processCallsOf (a ++ b) = processCallsOf a ++ processCallsOf b := by
  simp [processCallsOf, List.filter_append]

theorem startTimes_append (a b : List (Nat × Ev)) :
    startTimes (a ++ b) = startTimes a ++ startTimes b := by
  simp [startTimes, List.filterMap_append]

theorem resolveTimes_append (a b : List (Nat × Ev)) :
    resolveTimes (a ++ b) = resolveTimes a ++ resolveTimes b := by
  simp [resolveTimes, List.filterMap_append]

theorem enqueuedOf_cons (x : Nat × Ev) (tr : List (Nat × Ev)) :
    enqueuedOf (x :: tr) = (match x.2 with | Ev.enqueued e => [e] | _ => []) ++ enqueuedOf tr := by
  obtain ⟨t, ev⟩ := x
  cases ev <;> simp [enqueuedOf, List.filterMap_cons]

theorem startedOf_cons (x : Nat × Ev) (tr : List (Nat × Ev)) :
    startedOf (x :: tr) = (match x.2 with | Ev.started e => [e] | _ => []) ++ startedOf tr := by
  obtain ⟨t, ev⟩ := x
  cases ev <;> simp [startedOf, List.filterMap_cons]

theorem completedOf_cons (x : Nat × Ev) (tr : List (Nat × Ev)) :
    completedOf (x :: tr)
      = (match x.2 with | Ev.completed e => [e] | _ => []) ++ completedOf tr := by
  obtain ⟨t, ev⟩ := x
  cases ev <;> simp [completedOf, List.filterMap_cons]

theorem resolvedOf_cons (x : Nat × Ev) (tr : List (Nat × Ev)) :
    resolvedOf (x :: tr) = (match x.2 with | Ev.resolved e => [e] | _ => []) ++ resolvedOf tr := by
  obtain ⟨t, ev⟩ := x
  cases ev <;> simp [resolvedOf, List.filterMap_cons]

theorem threwOf_cons (x : Nat × Ev) (tr : List (Nat × Ev)) :
    threwOf (x :: tr) = (match x.2 with | Ev.threw e => [e] | _ => []) ++ threwOf tr := by
  obtain ⟨t, ev⟩ := x
  cases ev <;> simp [threwOf, List.filterMap_cons]

theorem processCallsOf_cons (x : Nat × Ev) (tr : List (Nat × Ev)) :
    processCallsOf (x :: tr)
      = (match x.2 with | Ev.started _ => [x] | Ev.foundEmpty => [x] | _ => [])
          ++ processCallsOf tr := by
  obtain ⟨t, ev⟩ := x
  cases ev <;> simp [processCallsOf, List.filter_cons]

theorem startTimes_cons (x : Nat × Ev) (tr : List (Nat × Ev)) :
    startTimes (x :: tr)
      = (match x.2 with | Ev.started e => [(e, x.1)] | _ => []) ++ startTimes tr := by
  obtain ⟨t, ev⟩ := x
  cases ev <;> simp [startTimes, List.filterMap_cons]

theorem resolveTimes_cons (x : Nat × Ev) (tr : List (Nat × Ev)) :
    resolveTimes (x :: tr)
      = (match x.2 with | Ev.resolved e => [(e, x.1)] | _ => []) ++ resolveTimes tr := by
  obtain ⟨t, ev⟩ := x
  cases ev <;> simp [resolveTimes, List.filterMap_cons]

theorem enqueuedOf_nil : enqueuedOf [] = [] := rfl

theorem startedOf_nil : startedOf [] = [] := rfl

theorem completedOf_nil : completedOf [] = [] := rfl

theorem resolvedOf_nil : resolvedOf [] = [] := rfl

theorem threwOf_nil : threwOf [] = [] := rfl

theorem processCallsOf_nil : processCallsOf [] = [] := rfl

theorem startTimes_nil : startTimes [] = [] := rfl

theorem resolveTimes_nil : resolveTimes [] = [] := rfl

/-! ### The invariant -/

theorem inv_new : Inv GameAnimations.new := by
  refine ⟨rfl, rfl, rfl, Or.inl ⟨rfl, rfl, rfl, rfl, rfl⟩⟩

theorem step_settle_of_find (s : GameAnimations) (r : Nat) (e : QueueEntry)
    (h : (s.awaiting.find? fun e => e.resolve = r) = some e) :
    step s (QueueAction.settle r) = resume s e := by
  simp only [step, h]

theorem step_reject_of_find (s : GameAnimations) (r : Nat) (e : QueueEntry)
    (h : (s.awaiting.find? fun e => e.resolve = r) = some e) :
    step s (QueueAction.reject r) = abandon s e := by
  simp only [step, h]

theorem step_settle_of_not_found (s : GameAnimations) (r : Nat)
    (h : (s.awaiting.find? fun e => e.resolve = r) = none) :
    step s (QueueAction.settle r) = s := by
  simp only [step, h]

theorem step_reject_of_not_found (s : GameAnimations) (r : Nat)
    (h : (s.awaiting.find? fun e => e.resolve = r) = none) :
    step s (QueueAction.reject r) = s := by
  simp only [step, h]

theorem inv_step (s : GameAnimations) (a : QueueAction) (h : Inv s) : Inv (step s a) := by
  obtain ⟨q, flag, aw, np, now, tr⟩ := s
  obtain ⟨h1, h2, h3, hph⟩ := h
  simp only [Idle, Busy, Stalled] at *
  cases a with
  | enqueue f =>
    rcases hph with ⟨ha, hw, hq, hsc, ht⟩ | ⟨e, ha, hw, hsc, ht⟩ | ⟨e, ha, hw, hsc, ht⟩
    · subst ha hw hq
      simp [Inv, Idle, Busy, Stalled, step, queueAnimation, processAnimationQueue, resume, abandon,
        enqueuedOf_append, startedOf_append, completedOf_append, resolvedOf_append,
        threwOf_append, enqueuedOf_cons, startedOf_cons, completedOf_cons, resolvedOf_cons,
        threwOf_cons, enqueuedOf_nil, startedOf_nil, completedOf_nil, resolvedOf_nil,
        threwOf_nil, List.range_succ] at *
      exact ⟨h1, h2, h3, hsc, ht⟩
    · subst ha hw
      simp [Inv, Idle, Busy, Stalled, step, queueAnimation, processAnimationQueue, resume, abandon,
        enqueuedOf_append, startedOf_append, completedOf_append, resolvedOf_append,
        threwOf_append, enqueuedOf_cons, startedOf_cons, completedOf_cons, resolvedOf_cons,
        threwOf_cons, enqueuedOf_nil, startedOf_nil, completedOf_nil, resolvedOf_nil,
        threwOf_nil, List.range_succ] at *
      exact ⟨by rw [h1, List.append_assoc], h2, h3, hsc, ht⟩
    · subst ha hw
      simp [Inv, Idle, Busy, Stalled, step, queueAnimation, processAnimationQueue, resume, abandon,
        enqueuedOf_append, startedOf_append, completedOf_append, resolvedOf_append,
        threwOf_append, enqueuedOf_cons, startedOf_cons, completedOf_cons, resolvedOf_cons,
        threwOf_cons, enqueuedOf_nil, startedOf_nil, completedOf_nil, resolvedOf_nil,
        threwOf_nil, List.range_succ] at *
      exact ⟨by rw [h1, List.append_assoc], h2, h3, e, hsc, ht⟩
  | settle r =>
    rcases hph with ⟨ha, hw, hq, hsc, ht⟩ | ⟨e, ha, hw, hsc, ht⟩ | ⟨e, ha, hw, hsc, ht⟩
    · subst ha hw hq
      rw [step_settle_of_not_found _ _ (by simp)]
      exact ⟨h1, h2, h3, Or.inl ⟨rfl, rfl, rfl, hsc, ht⟩⟩
    · subst ha hw
      by_cases hr : e.resolve = r
      · rw [step_settle_of_find _ _ e (by simp [hr])]
        cases q with
        | nil =>
          simp [Inv, Idle, Busy, Stalled, step, queueAnimation, processAnimationQueue, resume, abandon,
            enqueuedOf_append, startedOf_append, completedOf_append, resolvedOf_append,
            threwOf_append, enqueuedOf_cons, startedOf_cons, completedOf_cons, resolvedOf_cons,
            threwOf_cons, enqueuedOf_nil, startedOf_nil, completedOf_nil, resolvedOf_nil,
            threwOf_nil, List.range_succ] at *
          exact ⟨h1, h2, h3, hsc, ht⟩
        | cons e1 rest =>
          simp [Inv, Idle, Busy, Stalled, step, queueAnimation, processAnimationQueue, resume, abandon,
            enqueuedOf_append, startedOf_append, completedOf_append, resolvedOf_append,
            threwOf_append, enqueuedOf_cons, startedOf_cons, completedOf_cons, resolvedOf_cons,
            threwOf_cons, enqueuedOf_nil, startedOf_nil, completedOf_nil, resolvedOf_nil,
            threwOf_nil, List.range_succ] at *
          exact ⟨h1, h2, h3, by rw [hsc]; simp, ht⟩
      · rw [step_settle_of_not_found _ _ (by simp [hr])]
        exact ⟨h1, h2, h3, Or.inr (Or.inl ⟨e, rfl, rfl, hsc, ht⟩)⟩
    · subst ha hw
      rw [step_settle_of_not_found _ _ (by simp)]
      exact ⟨h1, h2, h3, Or.inr (Or.inr ⟨e, rfl, rfl, hsc, ht⟩)⟩
  | reject r =>
    rcases hph with ⟨ha, hw, hq, hsc, ht⟩ | ⟨e, ha, hw, hsc, ht⟩ | ⟨e, ha, hw, hsc, ht⟩
    · subst ha hw hq
      rw [step_reject_of_not_found _ _ (by simp)]
      exact ⟨h1, h2, h3, Or.inl ⟨rfl, rfl, rfl, hsc, ht⟩⟩
    · subst ha hw
      by_cases hr : e.resolve = r
      · rw [step_reject_of_find _ _ e (by simp [hr])]
        simp [Inv, Idle, Busy, Stalled, step, queueAnimation, processAnimationQueue, resume, abandon,
        enqueuedOf_append, startedOf_append, completedOf_append, resolvedOf_append,
        threwOf_append, enqueuedOf_cons, startedOf_cons, completedOf_cons, resolvedOf_cons,
        threwOf_cons, enqueuedOf_nil, startedOf_nil, completedOf_nil, resolvedOf_nil,
        threwOf_nil, List.range_succ] at *
        exact ⟨h1, h2, h3, e, hsc, by rw [ht]; rfl⟩
      · rw [step_reject_of_not_found _ _ (by simp [hr])]
        exact ⟨h1, h2, h3, Or.inr (Or.inl ⟨e, rfl, rfl, hsc, ht⟩)⟩
    · subst ha hw
      rw [step_reject_of_not_found _ _ (by simp)]
      exact ⟨h1, h2, h3, Or.inr (Or.inr ⟨e, rfl, rfl, hsc, ht⟩)⟩
  | advance ms =>
    exact ⟨h1, h2, h3, hph⟩

theorem inv_run (s : GameAnimations) (as : List QueueAction) (h : Inv s) : Inv (run s as) := by
  induction as generalizing s with
  | nil => exact h
  | cons a as ih => exact ih (step s a) (inv_step s a h)

/-! ### What one action appends to the trace -/

theorem step_trace (s : GameAnimations) (a : QueueAction) (h : Inv s) :
    ((step s a).trace = s.trace ∧ (step s a).isAnimating = s.isAnimating) ∨
    (∃ e, s.isAnimating = true ∧ (step s a).isAnimating = true ∧
      (step s a).trace = s.trace ++ [(s.now, Ev.enqueued e)]) ∨
    (∃ e, Idle s ∧ (step s a).isAnimating = true ∧
      (step s a).trace = s.trace ++ [(s.now, Ev.enqueued e), (s.now, Ev.started e)]) ∨
    (∃ e, Busy s e ∧ s.animationQueue = [] ∧ (step s a).isAnimating = false ∧
      (step s a).trace
        = s.trace ++ [(s.now, Ev.completed e), (s.now, Ev.resolved e), (s.now, Ev.foundEmpty)]) ∨
    (∃ e e1 rest, Busy s e ∧ s.animationQueue = e1 :: rest ∧ (step s a).isAnimating = true ∧
      (step s a).trace
        = s.trace ++ [(s.now, Ev.completed e), (s.now, Ev.resolved e), (s.now, Ev.started e1)]) ∨
    (∃ e, Busy s e ∧ (step s a).isAnimating = true ∧
      (step s a).trace = s.trace ++ [(s.now, Ev.threw e)]) := by
  obtain ⟨q, flag, aw, np, now, tr⟩ := s
  obtain ⟨h1, h2, h3, hph⟩ := h
  cases a with
  | enqueue f =>
    rcases hph with ⟨ha, hw, hq, hsc, ht⟩ | ⟨e, ha, hw, hsc, ht⟩ | ⟨e, ha, hw, hsc, ht⟩
    · dsimp only at ha hw hq hsc ht
      subst ha hw hq
      refine Or.inr (Or.inr (Or.inl ⟨⟨f, np⟩, ⟨rfl, rfl, rfl, hsc, ht⟩, ?_, ?_⟩)) <;>
        simp [step, queueAnimation, processAnimationQueue]
    · dsimp only at ha hw hsc ht
      subst ha hw
      refine Or.inr (Or.inl ⟨⟨f, np⟩, rfl, ?_, ?_⟩) <;>
        simp [step, queueAnimation]
    · dsimp only at ha hw hsc ht
      subst ha hw
      refine Or.inr (Or.inl ⟨⟨f, np⟩, rfl, ?_, ?_⟩) <;>
        simp [step, queueAnimation]
  | settle r =>
    rcases hph with ⟨ha, hw, hq, hsc, ht⟩ | ⟨e, ha, hw, hsc, ht⟩ | ⟨e, ha, hw, hsc, ht⟩
    · dsimp only at ha hw hq hsc ht
      subst ha hw hq
      exact Or.inl (by rw [step_settle_of_not_found _ _ (by simp)]; exact ⟨rfl, rfl⟩)
    · dsimp only at ha hw hsc ht
      subst ha hw
      by_cases hr : e.resolve = r
      · rw [step_settle_of_find _ _ e (by simp [hr])]
        cases q with
        | nil =>
          refine Or.inr (Or.inr (Or.inr (Or.inl ⟨e, ⟨rfl, rfl, hsc, ht⟩, rfl, ?_, ?_⟩))) <;>
            simp [resume, processAnimationQueue]
        | cons e1 rest =>
          refine Or.inr (Or.inr (Or.inr (Or.inr (Or.inl
            ⟨e, e1, rest, ⟨rfl, rfl, hsc, ht⟩, rfl, ?_, ?_⟩)))) <;>
            simp [resume, processAnimationQueue]
      · exact Or.inl (by rw [step_settle_of_not_found _ _ (by simp [hr])]; exact ⟨rfl, rfl⟩)
    · dsimp only at ha hw hsc ht
      subst ha hw
      exact Or.inl (by rw [step_settle_of_not_found _ _ (by simp)]; exact ⟨rfl, rfl⟩)
  | reject r =>
    rcases hph with ⟨ha, hw, hq, hsc, ht⟩ | ⟨e, ha, hw, hsc, ht⟩ | ⟨e, ha, hw, hsc, ht⟩
    · dsimp only at ha hw hq hsc ht
      subst ha hw hq
      exact Or.inl (by rw [step_reject_of_not_found _ _ (by simp)]; exact ⟨rfl, rfl⟩)
    · dsimp only at ha hw hsc ht
      subst ha hw
      by_cases hr : e.resolve = r
      · rw [step_reject_of_find _ _ e (by simp [hr])]
        refine Or.inr (Or.inr (Or.inr (Or.inr (Or.inr ⟨e, ⟨rfl, rfl, hsc, ht⟩, ?_, ?_⟩)))) <;>
          simp [abandon]
      · exact Or.inl (by rw [step_reject_of_not_found _ _ (by simp [hr])]; exact ⟨rfl, rfl⟩)
    · dsimp only at ha hw hsc ht
      subst ha hw
      exact Or.inl (by rw [step_reject_of_not_found _ _ (by simp)]; exact ⟨rfl, rfl⟩)
  | advance ms => exact Or.inl ⟨rfl, rfl⟩

/-! ### Splitting a trace that grew by one event -/

theorem split_of_snoc {α : Type} (tr pre post : List α) (x a : α)
    (h : tr ++ [x] = pre ++ a :: post) :
    (post = [] ∧ x = a ∧ tr = pre) ∨ ∃ post1, post = post1 ++ [x] ∧ tr = pre ++ a :: post1 := by
  rcases List.eq_nil_or_concat post with rfl | ⟨post1, y, rfl⟩
  · obtain ⟨h1, h2⟩ := List.append_inj' h rfl
    exact Or.inl ⟨rfl, by simpa using h2, h1⟩
  · have h' : tr ++ [x] = (pre ++ a :: post1) ++ [y] := by simpa using h
    obtain ⟨h1, h2⟩ := List.append_inj' h' rfl
    have hxy : x = y := by simpa using h2
    subst hxy
    exact Or.inr ⟨post1, by simp, h1⟩

/-! ### Order of the events in a trace -/

theorem startsInTurn_snoc (tr : List (Nat × Ev)) (x : Nat × Ev)
    (hx : ∀ e, x.2 ≠ Ev.started e) (h : StartsInTurn tr) : StartsInTurn (tr ++ [x]) := by
  intro pre t e post heq
  rcases split_of_snoc tr pre post x _ heq with ⟨_, hxa, _⟩ | ⟨post1, _, htr⟩
  · exact absurd (by rw [hxa]) (hx e)
  · exact h pre t e post1 htr

theorem startsInTurn_snoc_started (tr : List (Nat × Ev)) (t : Nat) (e : QueueEntry)
    (h : StartsInTurn tr) (hsc : startedOf tr = completedOf tr) :
    StartsInTurn (tr ++ [(t, Ev.started e)]) := by
  intro pre t1 e1 post heq
  rcases split_of_snoc tr pre post _ _ heq with ⟨_, _, htr⟩ | ⟨post1, _, htr⟩
  · rw [← htr]
    exact hsc
  · exact h pre t1 e1 post1 htr

theorem resolvedByOwn_snoc (tr : List (Nat × Ev)) (x : Nat × Ev)
    (hx : ∀ e, x.2 ≠ Ev.resolved e) (h : ResolvedByOwn tr) : ResolvedByOwn (tr ++ [x]) := by
  intro pre t e post heq
  rcases split_of_snoc tr pre post x _ heq with ⟨_, hxa, _⟩ | ⟨post1, _, htr⟩
  · exact absurd (by rw [hxa]) (hx e)
  · exact h pre t e post1 htr

theorem resolvedByOwn_snoc_resolved (tr : List (Nat × Ev)) (t : Nat) (e : QueueEntry)
    (h : ResolvedByOwn tr) :
    ResolvedByOwn (tr ++ [(t, Ev.completed e)] ++ [(t, Ev.resolved e)]) := by
  intro pre t1 e1 post heq
  rcases split_of_snoc _ pre post _ _ heq with ⟨_, hxa, htr⟩ | ⟨post1, _, htr⟩
  · simp only [Prod.mk.injEq, Ev.resolved.injEq] at hxa
    obtain ⟨rfl, rfl⟩ := hxa
    exact ⟨tr, htr.symm⟩
  · exact resolvedByOwn_snoc tr _ (by simp) h pre t1 e1 post1 htr

theorem startedSinceEmpty_snoc (tr : List (Nat × Ev)) (x : Nat × Ev)
    (hx : ∀ e, x.2 ≠ Ev.started e) (hx2 : x.2 ≠ Ev.foundEmpty) :
    StartedSinceEmpty (tr ++ [x]) ↔ StartedSinceEmpty tr := by
  constructor
  · rintro ⟨pre, t, e, post, heq, hpost⟩
    rcases split_of_snoc tr pre post x _ heq with ⟨_, hxa, _⟩ | ⟨post1, hp, htr⟩
    · exact absurd (by rw [hxa]) (hx e)
    · refine ⟨pre, t, e, post1, htr, ?_⟩
      intro y hy
      exact hpost y (by rw [hp]; exact List.mem_append_left _ hy)
  · rintro ⟨pre, t, e, post, heq, hpost⟩
    refine ⟨pre, t, e, post ++ [x], by rw [heq]; simp, ?_⟩
    intro y hy
    rcases List.mem_append.mp hy with h | h
    · exact hpost y h
    · rw [List.mem_singleton.mp h]
      exact hx2

theorem startedSinceEmpty_snoc_started (tr : List (Nat × Ev)) (t : Nat) (e : QueueEntry) :
    StartedSinceEmpty (tr ++ [(t, Ev.started e)]) :=
  ⟨tr, t, e, [], rfl, by simp⟩

theorem not_startedSinceEmpty_snoc_foundEmpty (tr : List (Nat × Ev)) (t : Nat) :
    ¬ StartedSinceEmpty (tr ++ [(t, Ev.foundEmpty)]) := by
  rintro ⟨pre, t1, e, post, heq, hpost⟩
  rcases split_of_snoc tr pre post _ _ heq with ⟨_, hxa, _⟩ | ⟨post1, hp, _⟩
  · simp at hxa
  · exact hpost (t, Ev.foundEmpty) (by rw [hp]; simp) rfl

theorem not_startedSinceEmpty_nil : ¬ StartedSinceEmpty [] := by
  rintro ⟨pre, t, e, post, heq, _⟩
  simp at heq

theorem trace_step (s : GameAnimations) (a : QueueAction) (h : Inv s)
    (hs : StartsInTurn s.trace) (hr : ResolvedByOwn s.trace)
    (hf : s.isAnimating = true ↔ StartedSinceEmpty s.trace) :
    StartsInTurn (step s a).trace ∧ ResolvedByOwn (step s a).trace ∧
      ((step s a).isAnimating = true ↔ StartedSinceEmpty (step s a).trace) := by
  rcases step_trace s a h with ⟨ht, hfl⟩ | ⟨e, ha, hfl, ht⟩ | ⟨e, hI, hfl, ht⟩ |
    ⟨e, hB, hq, hfl, ht⟩ | ⟨e, e1, rest, hB, hq, hfl, ht⟩ | ⟨e, hB, hfl, ht⟩
  · rw [ht, hfl]
    exact ⟨hs, hr, hf⟩
  · rw [ht, hfl]
    refine ⟨startsInTurn_snoc _ _ (by simp) hs, resolvedByOwn_snoc _ _ (by simp) hr, ?_⟩
    rw [startedSinceEmpty_snoc _ _ (by simp) (by simp), ← hf]
    simp [ha]
  · have e3 : s.trace ++ [(s.now, Ev.enqueued e), (s.now, Ev.started e)]
        = s.trace ++ [(s.now, Ev.enqueued e)] ++ [(s.now, Ev.started e)] := by simp
    rw [ht, hfl, e3]
    refine ⟨startsInTurn_snoc_started _ _ _ (startsInTurn_snoc _ _ (by simp) hs) ?_,
      resolvedByOwn_snoc _ _ (by simp) (resolvedByOwn_snoc _ _ (by simp) hr), ?_⟩
    · rw [startedOf_append, completedOf_append, hI.2.2.2.1]
      simp [startedOf_cons, completedOf_cons, startedOf_nil, completedOf_nil]
    · exact ⟨fun _ => startedSinceEmpty_snoc_started _ _ _, fun _ => rfl⟩
  · have e3 : s.trace ++ [(s.now, Ev.completed e), (s.now, Ev.resolved e), (s.now, Ev.foundEmpty)]
        = s.trace ++ [(s.now, Ev.completed e)] ++ [(s.now, Ev.resolved e)]
            ++ [(s.now, Ev.foundEmpty)] := by simp
    rw [ht, hfl, e3]
    refine ⟨startsInTurn_snoc _ _ (by simp) (startsInTurn_snoc _ _ (by simp)
        (startsInTurn_snoc _ _ (by simp) hs)),
      resolvedByOwn_snoc _ _ (by simp) (resolvedByOwn_snoc_resolved _ _ _ hr), ?_⟩
    exact ⟨fun h => absurd h (by simp),
      fun h => absurd h (not_startedSinceEmpty_snoc_foundEmpty _ _)⟩
  · have e3 : s.trace ++ [(s.now, Ev.completed e), (s.now, Ev.resolved e), (s.now, Ev.started e1)]
        = s.trace ++ [(s.now, Ev.completed e)] ++ [(s.now, Ev.resolved e)]
            ++ [(s.now, Ev.started e1)] := by simp
    rw [ht, hfl, e3]
    refine ⟨startsInTurn_snoc_started _ _ _ (startsInTurn_snoc _ _ (by simp)
        (startsInTurn_snoc _ _ (by simp) hs)) ?_,
      resolvedByOwn_snoc _ _ (by simp) (resolvedByOwn_snoc_resolved _ _ _ hr), ?_⟩
    · rw [startedOf_append, completedOf_append, startedOf_append, completedOf_append, hB.2.2.1]
      simp [startedOf_cons, completedOf_cons, startedOf_nil, completedOf_nil]
    · exact ⟨fun _ => startedSinceEmpty_snoc_started _ _ _, fun _ => rfl⟩
  · rw [ht, hfl]
    refine ⟨startsInTurn_snoc _ _ (by simp) hs, resolvedByOwn_snoc _ _ (by simp) hr, ?_⟩
    rw [startedSinceEmpty_snoc _ _ (by simp) (by simp), ← hf]
    simp [hB.1]

theorem trace_run (s : GameAnimations) (as : List QueueAction) (h : Inv s)
    (hs : StartsInTurn s.trace) (hr : ResolvedByOwn s.trace)
    (hf : s.isAnimating = true ↔ StartedSinceEmpty s.trace) :
    StartsInTurn (run s as).trace ∧ ResolvedByOwn (run s as).trace ∧
      ((run s as).isAnimating = true ↔ StartedSinceEmpty (run s as).trace) := by
  induction as generalizing s with
  | nil => exact ⟨hs, hr, hf⟩
  | cons a as ih =>
    obtain ⟨hs1, hr1, hf1⟩ := trace_step s a h hs hr hf
    exact ih (step s a) (inv_step s a h) hs1 hr1 hf1

theorem trace_new :
    StartsInTurn GameAnimations.new.trace ∧ ResolvedByOwn GameAnimations.new.trace ∧
      (GameAnimations.new.isAnimating = true ↔ StartedSinceEmpty GameAnimations.new.trace) := by
  refine ⟨?_, ?_, ?_⟩
  · intro pre t e post heq
    simp [GameAnimations.new] at heq
  · intro pre t e post heq
    simp [GameAnimations.new] at heq
  · simp [GameAnimations.new, not_startedSinceEmpty_nil]

/-! ### Completion of the running task -/

theorem settle_awaiting (s : GameAnimations) (e : QueueEntry) (hw : s.awaiting = [e]) :
    (s.animationQueue = [] ∧
      step s (QueueAction.settle e.resolve) =
        { s with
          isAnimating := false
          awaiting := []
          trace := s.trace ++
            [(s.now, Ev.completed e), (s.now, Ev.resolved e), (s.now, Ev.foundEmpty)] }) ∨
    (∃ e1 rest, s.animationQueue = e1 :: rest ∧
      step s (QueueAction.settle e.resolve) =
        { s with
          isAnimating := true
          animationQueue := rest
          awaiting := [e1]
          trace := s.trace ++
            [(s.now, Ev.completed e), (s.now, Ev.resolved e), (s.now, Ev.started e1)] }) := by
  obtain ⟨q, flag, aw, np, now, tr⟩ := s
  dsimp only at hw
  subst hw
  rw [step_settle_of_find _ _ e (by simp)]
  cases q with
  | nil =>
    left
    simp [resume, processAnimationQueue]
  | cons e1 rest =>
    right
    exact ⟨e1, rest, rfl, by simp [resume, processAnimationQueue]⟩

theorem drain_of_awaiting_nil (fuel : Nat) (s : GameAnimations) (h : s.awaiting = []) :
    drain fuel s = s := by
  cases fuel with
  | zero => rfl
  | succ n => simp [drain, h]

theorem drain_spec (fuel : Nat) (s : GameAnimations) (h : Inv s) (hthrew : threwOf s.trace = [])
    (hfuel : s.animationQueue.length + s.awaiting.length ≤ fuel) :
    Inv (drain fuel s) ∧ Idle (drain fuel s) ∧
      enqueuedOf (drain fuel s).trace = enqueuedOf s.trace := by
  induction fuel generalizing s with
  | zero =>
    have hq : s.animationQueue = [] := List.length_eq_zero.mp (by omega)
    have hw : s.awaiting = [] := List.length_eq_zero.mp (by omega)
    refine ⟨h, ?_, rfl⟩
    rcases h.2.2.2 with hI | ⟨e, hB⟩ | ⟨e, hS⟩
    · exact hI
    · rw [hB.2.1] at hw
      simp at hw
    · rw [hS.2.2.2] at hthrew
      simp at hthrew
  | succ n ih =>
    rcases h.2.2.2 with hI | ⟨e, hB⟩ | ⟨e, hS⟩
    · rw [drain_of_awaiting_nil _ _ hI.2.1]
      exact ⟨h, hI, rfl⟩
    · have hstep : drain (n + 1) s = drain n (step s (QueueAction.settle e.resolve)) := by
        simp [drain, hB.2.1]
      have hinv := inv_step s (QueueAction.settle e.resolve) h
      rw [hstep]
      rcases settle_awaiting s e hB.2.1 with ⟨hq, hs1⟩ | ⟨e1, rest, hq, hs1⟩
      · rw [hs1] at hinv ⊢
        obtain ⟨i1, i2, i3⟩ := ih _ hinv
          (by simp [threwOf_append, threwOf_cons, threwOf_nil, hthrew]) (by simp [hq])
        refine ⟨i1, i2, ?_⟩
        rw [i3]
        simp [enqueuedOf_append, enqueuedOf_cons, enqueuedOf_nil]
      · rw [hs1] at hinv ⊢
        have hl : rest.length + 1 ≤ n := by
          rw [hq, hB.2.1] at hfuel
          simp at hfuel
          omega
        obtain ⟨i1, i2, i3⟩ := ih _ hinv
          (by simp [threwOf_append, threwOf_cons, threwOf_nil, hthrew]) (by simpa using hl)
        refine ⟨i1, i2, ?_⟩
        rw [i3]
        simp [enqueuedOf_append, enqueuedOf_cons, enqueuedOf_nil]
    · rw [hS.2.2.2] at hthrew
      simp at hthrew

/-! ### Reachable states -/

theorem inv_reachable (as : List QueueAction) : Inv (run GameAnimations.new as) :=
  inv_run _ as inv_new

theorem started_nodup (s : GameAnimations) (h : Inv s) : (startedOf s.trace).Nodup := by
  have hn : (enqueuedOf s.trace).Nodup := by
    apply List.Nodup.of_map (fun e => e.resolve)
    rw [h.2.2.1]
    exact List.nodup_range _
  rw [h.1] at hn
  exact (List.nodup_append.mp hn).1

theorem started_eq_completed_append (s : GameAnimations) (h : Inv s) :
    ∃ rest, startedOf s.trace = completedOf s.trace ++ rest ∧ rest.length ≤ 1 ∧
      rest.length = (threwOf s.trace).length + s.awaiting.length := by
  rcases h.2.2.2 with hI | ⟨e, hB⟩ | ⟨e, hS⟩
  · exact ⟨[], by simpa using hI.2.2.2.1, by simp, by simp [hI.2.2.2.2, hI.2.1]⟩
  · exact ⟨[e], hB.2.2.1, by simp, by simp [hB.2.2.2, hB.2.1]⟩
  · exact ⟨[e], hS.2.2.1, by simp, by simp [hS.2.2.2, hS.2.1]⟩

theorem completed_nodup (s : GameAnimations) (h : Inv s) : (completedOf s.trace).Nodup := by
  obtain ⟨rest, hr, _, _⟩ := started_eq_completed_append s h
  have hn := started_nodup s h
  rw [hr] at hn
  exact (List.nodup_append.mp hn).1

theorem drained (fuel : Nat) (s : GameAnimations) (h : Inv s) (hthrew : threwOf s.trace = [])
    (hfuel : s.animationQueue.length + 1 ≤ fuel) :
    (drain fuel s).isAnimating = false ∧ (drain fuel s).animationQueue = [] ∧
      (drain fuel s).awaiting = [] ∧
      enqueuedOf (drain fuel s).trace = enqueuedOf s.trace ∧
      startedOf (drain fuel s).trace = enqueuedOf s.trace ∧
      completedOf (drain fuel s).trace = enqueuedOf s.trace ∧
      resolvedOf (drain fuel s).trace = enqueuedOf s.trace := by
  have hlen : s.awaiting.length ≤ 1 := by
    obtain ⟨rest, _, h1, h2⟩ := started_eq_completed_append s h
    omega
  obtain ⟨i1, i2, i3⟩ := drain_spec fuel s h hthrew (by omega)
  have hs : startedOf (drain fuel s).trace = enqueuedOf s.trace := by
    rw [← i3, i1.1, i2.2.2.1]
    simp
  have hc : completedOf (drain fuel s).trace = enqueuedOf s.trace := by
    rw [← i2.2.2.2.1, hs]
  exact ⟨i2.1, i2.2.2.1, i2.2.1, i3, hs, hc, by rw [i1.2.1, hc]⟩

end GameAnimations

/-- C4: in every state reached from a fresh queue by any sequence of `queueAnimation`
calls (also calls made while a task runs), completions, failures and clock ticks, at
most one `processAnimationQueue` activation is suspended at `await func()`: the tasks
started and not yet completed or failed are exactly the awaited ones, and there is at
most one. -/
theorem GameAnimations.at_most_one_in_flight (as : List QueueAction) :
    (GameAnimations.run GameAnimations.new as).awaiting.length ≤ 1 ∧
    (GameAnimations.startedOf (GameAnimations.run GameAnimations.new as).trace).length
      = (GameAnimations.completedOf (GameAnimations.run GameAnimations.new as).trace).length
        + (GameAnimations.threwOf (GameAnimations.run GameAnimations.new as).trace).length
        + (GameAnimations.run GameAnimations.new as).awaiting.length ∧
    (GameAnimations.startedOf (GameAnimations.run GameAnimations.new as).trace).length
      ≤ (GameAnimations.completedOf (GameAnimations.run GameAnimations.new as).trace).length + 1 := by
  obtain ⟨rest, h1, h2, h3⟩ :=
    GameAnimations.started_eq_completed_append _ (GameAnimations.inv_reachable as)
  have hl := congrArg List.length h1
  rw [List.length_append] at hl
  refine ⟨by omega, by omega, by omega⟩

/-- C2: after any interleaving of `queueAnimation` calls, completions, failures and
clock ticks on a fresh queue, the entries pushed so far are exactly the started ones
followed by the pending ones (started in push order, none dropped), no entry is started
twice, the completed tasks are the started ones in the same order except possibly the
last, and a task is started only when every task started before it has completed; and
when no task has thrown, fulfilling the awaited promise of each running task in turn
starts and completes every pushed entry, in push order. -/
theorem GameAnimations.fifo_order (as : List QueueAction) :
    (let s := GameAnimations.run GameAnimations.new as
    GameAnimations.enqueuedOf s.trace = GameAnimations.startedOf s.trace ++ s.animationQueue ∧
    (GameAnimations.startedOf s.trace).Nodup ∧
    (∃ rest, GameAnimations.startedOf s.trace = GameAnimations.completedOf s.trace ++ rest ∧
      rest.length ≤ 1) ∧
    GameAnimations.StartsInTurn s.trace ∧
    (GameAnimations.threwOf s.trace = [] → ∀ fuel, s.animationQueue.length + 1 ≤ fuel →
      GameAnimations.startedOf (GameAnimations.drain fuel s).trace
        = GameAnimations.enqueuedOf s.trace ∧
      GameAnimations.completedOf (GameAnimations.drain fuel s).trace
        = GameAnimations.enqueuedOf s.trace)) := by
  intro s
  have hinv : GameAnimations.Inv s := GameAnimations.inv_reachable as
  obtain ⟨hs, _, _⟩ := GameAnimations.trace_run GameAnimations.new as GameAnimations.inv_new
    GameAnimations.trace_new.1 GameAnimations.trace_new.2.1 GameAnimations.trace_new.2.2
  obtain ⟨rest, h1, h2, _⟩ := GameAnimations.started_eq_completed_append s hinv
  refine ⟨hinv.1, GameAnimations.started_nodup s hinv, ⟨rest, h1, h2⟩, hs, ?_⟩
  intro hthrew fuel hfuel
  obtain ⟨_, _, _, _, d1, d2, _⟩ := GameAnimations.drained fuel s hinv hthrew hfuel
  exact ⟨d1, d2⟩

/-- C2 on a run: three tasks, the third pushed after the first completed, are completed
in push order. -/
theorem GameAnimations.fifo_order_witness :
    GameAnimations.completedOf (GameAnimations.drain 2 (GameAnimations.run GameAnimations.new
      [QueueAction.enqueue 7, QueueAction.enqueue 8, QueueAction.settle 0,
        QueueAction.enqueue 9])).trace
      = [{ func := 7, resolve := 0 }, { func := 8, resolve := 1 }, { func := 9, resolve := 2 }] :=
  ((GameAnimations.fifo_order
    [QueueAction.enqueue 7, QueueAction.enqueue 8, QueueAction.settle 0,
      QueueAction.enqueue 9]).2.2.2.2 (by decide) 2 (by decide)).2.trans (by decide)

/-- C3: after any interleaving on a fresh queue, the promises resolved are exactly those
of the completed tasks, in the same order and each once; every `resolve()` comes right
after the completion of its own task; the promise of the running task and of every
pending entry is not resolved, and the completion of the running task resolves exactly
its promise; and when no task has thrown, fulfilling the awaited promise of each running
task in turn resolves the promise of every pushed entry. -/
theorem GameAnimations.promise_resolution (as : List QueueAction) :
    (let s := GameAnimations.run GameAnimations.new as
    GameAnimations.resolvedOf s.trace = GameAnimations.completedOf s.trace ∧
    (GameAnimations.resolvedOf s.trace).Nodup ∧
    GameAnimations.ResolvedByOwn s.trace ∧
    (∀ e, e ∈ s.awaiting ++ s.animationQueue → e ∉ GameAnimations.resolvedOf s.trace) ∧
    (∀ e, e ∈ s.awaiting →
      GameAnimations.resolvedOf (GameAnimations.step s (QueueAction.settle e.resolve)).trace
        = GameAnimations.resolvedOf s.trace ++ [e]) ∧
    (GameAnimations.threwOf s.trace = [] → ∀ fuel, s.animationQueue.length + 1 ≤ fuel →
      GameAnimations.resolvedOf (GameAnimations.drain fuel s).trace
        = GameAnimations.enqueuedOf s.trace)) := by
  intro s
  have hinv : GameAnimations.Inv s := GameAnimations.inv_reachable as
  obtain ⟨_, hr, _⟩ := GameAnimations.trace_run GameAnimations.new as GameAnimations.inv_new
    GameAnimations.trace_new.1 GameAnimations.trace_new.2.1 GameAnimations.trace_new.2.2
  have hsn := GameAnimations.started_nodup s hinv
  have hen : (GameAnimations.enqueuedOf s.trace).Nodup := by
    apply List.Nodup.of_map (fun e => e.resolve)
    rw [hinv.2.2.1]
    exact List.nodup_range _
  refine ⟨hinv.2.1, by rw [hinv.2.1]; exact GameAnimations.completed_nodup s hinv, hr, ?_, ?_, ?_⟩
  · intro e he hres
    rw [hinv.2.1] at hres
    rcases List.mem_append.mp he with hw | hq
    · rcases hinv.2.2.2 with hI | ⟨e1, hB⟩ | ⟨e1, hS⟩
      · rw [hI.2.1] at hw
        simp at hw
      · rw [hB.2.1] at hw
        rw [hB.2.2.1] at hsn
        have : e = e1 := by simpa using hw
        subst this
        exact (List.nodup_append.mp hsn).2.2 hres (by simp)
      · rw [hS.2.1] at hw
        simp at hw
    · rw [hinv.1] at hen
      obtain ⟨rest, h1, _, _⟩ := GameAnimations.started_eq_completed_append s hinv
      have hst : e ∈ GameAnimations.startedOf s.trace := by
        rw [h1]
        exact List.mem_append_left _ hres
      exact (List.nodup_append.mp hen).2.2 hst hq
  · intro e he
    rcases hinv.2.2.2 with hI | ⟨e1, hB⟩ | ⟨e1, hS⟩
    · rw [hI.2.1] at he
      simp at he
    · rw [hB.2.1] at he
      have : e = e1 := by simpa using he
      subst this
      rcases GameAnimations.settle_awaiting s e hB.2.1 with ⟨_, hs1⟩ | ⟨e2, rest, _, hs1⟩
      · rw [hs1]
        simp [GameAnimations.resolvedOf_append, GameAnimations.resolvedOf_cons,
          GameAnimations.resolvedOf_nil]
      · rw [hs1]
        simp [GameAnimations.resolvedOf_append, GameAnimations.resolvedOf_cons,
          GameAnimations.resolvedOf_nil]
    · rw [hS.2.1] at he
      simp at he
  · intro hthrew fuel hfuel
    exact (GameAnimations.drained fuel s hinv hthrew hfuel).2.2.2.2.2.2

/-- C3 on a run: with one task running and one pending, the completion of the running
task resolves its promise and no other. -/
theorem GameAnimations.promise_resolution_witness :
    GameAnimations.resolvedOf (GameAnimations.step (GameAnimations.run GameAnimations.new
      [QueueAction.enqueue 7, QueueAction.enqueue 8]) (QueueAction.settle 0)).trace
      = [{ func := 7, resolve := 0 }] :=
  (GameAnimations.promise_resolution
    [QueueAction.enqueue 7, QueueAction.enqueue 8]).2.2.2.2.1 { func := 7, resolve := 0 }
    (by decide)

/-- C5: after any interleaving on a fresh queue, `isAnimating` is true exactly when some
task was started and no later `processAnimationQueue` call found the queue empty; in a
state where every pushed task has completed the flag is false and the pending list is
empty; and when no task has thrown, fulfilling the awaited promise of each running task
in turn leads to such a state. -/
theorem GameAnimations.isAnimating_iff (as : List QueueAction) :
    (let s := GameAnimations.run GameAnimations.new as
    (s.isAnimating = true ↔ GameAnimations.StartedSinceEmpty s.trace) ∧
    (GameAnimations.completedOf s.trace = GameAnimations.enqueuedOf s.trace →
      s.isAnimating = false ∧ s.animationQueue = []) ∧
    (GameAnimations.threwOf s.trace = [] → ∀ fuel, s.animationQueue.length + 1 ≤ fuel →
      GameAnimations.completedOf (GameAnimations.drain fuel s).trace
        = GameAnimations.enqueuedOf s.trace ∧
      (GameAnimations.drain fuel s).isAnimating = false ∧
      (GameAnimations.drain fuel s).animationQueue = [])) := by
  intro s
  have hinv : GameAnimations.Inv s := GameAnimations.inv_reachable as
  obtain ⟨_, _, hf⟩ := GameAnimations.trace_run GameAnimations.new as GameAnimations.inv_new
    GameAnimations.trace_new.1 GameAnimations.trace_new.2.1 GameAnimations.trace_new.2.2
  refine ⟨hf, ?_, ?_⟩
  · intro hce
    have hlen := congrArg List.length hinv.1
    rw [← hce, List.length_append] at hlen
    rcases hinv.2.2.2 with hI | ⟨e, hB⟩ | ⟨e, hS⟩
    · exact ⟨hI.1, hI.2.2.1⟩
    · rw [hB.2.2.1, List.length_append] at hlen
      simp at hlen
      omega
    · rw [hS.2.2.1, List.length_append] at hlen
      simp at hlen
      omega
  · intro hthrew fuel hfuel
    obtain ⟨d1, d2, _, _, _, d6, _⟩ := GameAnimations.drained fuel s hinv hthrew hfuel
    exact ⟨d6, d1, d2⟩

/-- C5 on a run: two tasks pushed on a fresh queue, then both completed: the flag is
false again and nothing is pending. -/
theorem GameAnimations.isAnimating_iff_witness :
    (GameAnimations.drain 2 (GameAnimations.run GameAnimations.new
      [QueueAction.enqueue 7, QueueAction.enqueue 8])).isAnimating = false ∧
    (GameAnimations.drain 2 (GameAnimations.run GameAnimations.new
      [QueueAction.enqueue 7, QueueAction.enqueue 8])).animationQueue = [] :=
  ((GameAnimations.isAnimating_iff
    [QueueAction.enqueue 7, QueueAction.enqueue 8]).2.2 (by decide) 2 (by decide)).2

/-! ### After a task has thrown -/

theorem GameAnimations.stalled_step (s : GameAnimations) (a : QueueAction) (e : QueueEntry)
    (h : GameAnimations.Inv s) (hS : GameAnimations.Stalled s e) :
    GameAnimations.Stalled (GameAnimations.step s a) e ∧
      GameAnimations.processCallsOf (GameAnimations.step s a).trace
        = GameAnimations.processCallsOf s.trace ∧
      GameAnimations.startedOf (GameAnimations.step s a).trace = GameAnimations.startedOf s.trace ∧
      GameAnimations.resolvedOf (GameAnimations.step s a).trace
        = GameAnimations.resolvedOf s.trace := by
  have hinv := GameAnimations.inv_step s a h
  have key : GameAnimations.threwOf (GameAnimations.step s a).trace = [e] →
      GameAnimations.Stalled (GameAnimations.step s a) e := by
    intro ht
    rcases hinv.2.2.2 with hI | ⟨e1, hB⟩ | ⟨e1, hS1⟩
    · rw [hI.2.2.2.2] at ht
      simp at ht
    · rw [hB.2.2.2] at ht
      simp at ht
    · have : e1 = e := by
        rw [hS1.2.2.2] at ht
        simpa using ht
      subst this
      exact hS1
  rcases GameAnimations.step_trace s a h with ⟨ht, _⟩ | ⟨e1, _, _, ht⟩ | ⟨e1, hI, _, _⟩ |
    ⟨e1, hB, _, _, _⟩ | ⟨e1, e2, rest, hB, _, _, _⟩ | ⟨e1, hB, _, _⟩
  · refine ⟨key (by rw [ht]; exact hS.2.2.2), by rw [ht], by rw [ht], by rw [ht]⟩
  · refine ⟨key ?_, ?_, ?_, ?_⟩
    · rw [ht, GameAnimations.threwOf_append, hS.2.2.2]
      simp [GameAnimations.threwOf_cons, GameAnimations.threwOf_nil]
    · rw [ht, GameAnimations.processCallsOf_append]
      simp [GameAnimations.processCallsOf_cons, GameAnimations.processCallsOf_nil]
    · rw [ht, GameAnimations.startedOf_append]
      simp [GameAnimations.startedOf_cons, GameAnimations.startedOf_nil]
    · rw [ht, GameAnimations.resolvedOf_append]
      simp [GameAnimations.resolvedOf_cons, GameAnimations.resolvedOf_nil]
  · have := hI.2.2.2.2
    rw [hS.2.2.2] at this
    simp at this
  · have := hB.2.2.2
    rw [hS.2.2.2] at this
    simp at this
  · have := hB.2.2.2
    rw [hS.2.2.2] at this
    simp at this
  · have := hB.2.2.2
    rw [hS.2.2.2] at this
    simp at this

theorem GameAnimations.stalled_run (s : GameAnimations) (as : List QueueAction) (e : QueueEntry)
    (h : GameAnimations.Inv s) (hS : GameAnimations.Stalled s e) :
    GameAnimations.Inv (GameAnimations.run s as) ∧
      GameAnimations.Stalled (GameAnimations.run s as) e ∧
      GameAnimations.processCallsOf (GameAnimations.run s as).trace
        = GameAnimations.processCallsOf s.trace ∧
      GameAnimations.startedOf (GameAnimations.run s as).trace = GameAnimations.startedOf s.trace ∧
      GameAnimations.resolvedOf (GameAnimations.run s as).trace
        = GameAnimations.resolvedOf s.trace := by
  induction as generalizing s with
  | nil => exact ⟨h, hS, rfl, rfl, rfl⟩
  | cons a as ih =>
    obtain ⟨s1, s2, s3, s4⟩ := GameAnimations.stalled_step s a e h hS
    obtain ⟨r0, r1, r2, r3, r4⟩ := ih (GameAnimations.step s a) (GameAnimations.inv_step s a h) s1
    exact ⟨r0, r1, r2.trans s2, r3.trans s3, r4.trans s4⟩

/-- C7: when the running task of a reachable state throws (or its awaited promise is
rejected), then whatever happens afterwards (more `queueAnimation` calls, settlements,
clock ticks): `isAnimating` stays true, no activation of `processAnimationQueue` is
left and none is made (no entry is started, no empty queue found), the promise of the
failed task and every other unresolved promise stay unresolved, and every entry that was
pending or is pushed later stays in the pending list, never started. -/
theorem GameAnimations.throw_stalls (as js : List QueueAction) (e : QueueEntry)
    (he : e ∈ (GameAnimations.run GameAnimations.new as).awaiting) :
    (let s := GameAnimations.run GameAnimations.new as
    let s1 := GameAnimations.run (GameAnimations.step s (QueueAction.reject e.resolve)) js
    s1.isAnimating = true ∧ s1.awaiting = [] ∧
    e ∉ GameAnimations.resolvedOf s1.trace ∧
    GameAnimations.processCallsOf s1.trace = GameAnimations.processCallsOf s.trace ∧
    GameAnimations.startedOf s1.trace = GameAnimations.startedOf s.trace ∧
    GameAnimations.resolvedOf s1.trace = GameAnimations.resolvedOf s.trace ∧
    GameAnimations.enqueuedOf s1.trace = GameAnimations.startedOf s.trace ++ s1.animationQueue ∧
    (∀ x, x ∈ s1.animationQueue →
      x ∉ GameAnimations.startedOf s1.trace ∧ x ∉ GameAnimations.resolvedOf s1.trace)) := by
  intro s s1
  have hinv : GameAnimations.Inv s := GameAnimations.inv_reachable as
  have hB : GameAnimations.Busy s e := by
    rcases hinv.2.2.2 with hI | ⟨e1, hB⟩ | ⟨e1, hS⟩
    · have he' : e ∈ s.awaiting := he
      rw [hI.2.1] at he'
      simp at he'
    · have he' : e ∈ s.awaiting := he
      rw [hB.2.1] at he'
      have : e = e1 := by simpa using he'
      subst this
      exact hB
    · have he' : e ∈ s.awaiting := he
      rw [hS.2.1] at he'
      simp at he'
  have hstep : GameAnimations.step s (QueueAction.reject e.resolve) = GameAnimations.abandon s e :=
    GameAnimations.step_reject_of_find s _ e (by rw [hB.2.1]; simp)
  have hinv0 := GameAnimations.inv_step s (QueueAction.reject e.resolve) hinv
  have hS0 : GameAnimations.Stalled (GameAnimations.step s (QueueAction.reject e.resolve)) e := by
    rw [hstep]
    refine ⟨hB.1, by simp [GameAnimations.abandon, hB.2.1], ?_, ?_⟩
    · simp [GameAnimations.abandon, GameAnimations.startedOf_append,
        GameAnimations.completedOf_append, GameAnimations.startedOf_cons,
        GameAnimations.completedOf_cons, GameAnimations.startedOf_nil,
        GameAnimations.completedOf_nil, hB.2.2.1]
    · simp [GameAnimations.abandon, GameAnimations.threwOf_append, GameAnimations.threwOf_cons,
        GameAnimations.threwOf_nil, hB.2.2.2]
  have ht0 : (GameAnimations.step s (QueueAction.reject e.resolve)).trace
      = s.trace ++ [(s.now, Ev.threw e)] := by
    rw [hstep]
    rfl
  obtain ⟨r0, r1, r2, r3, r4⟩ := GameAnimations.stalled_run _ js e hinv0 hS0
  have hp : GameAnimations.processCallsOf s1.trace = GameAnimations.processCallsOf s.trace := by
    rw [r2, ht0, GameAnimations.processCallsOf_append]
    simp [GameAnimations.processCallsOf_cons, GameAnimations.processCallsOf_nil]
  have hst : GameAnimations.startedOf s1.trace = GameAnimations.startedOf s.trace := by
    rw [r3, ht0, GameAnimations.startedOf_append]
    simp [GameAnimations.startedOf_cons, GameAnimations.startedOf_nil]
  have hre : GameAnimations.resolvedOf s1.trace = GameAnimations.resolvedOf s.trace := by
    rw [r4, ht0, GameAnimations.resolvedOf_append]
    simp [GameAnimations.resolvedOf_cons, GameAnimations.resolvedOf_nil]
  have hsn := GameAnimations.started_nodup s hinv
  have hen : (GameAnimations.enqueuedOf s1.trace).Nodup := by
    apply List.Nodup.of_map (fun e => e.resolve)
    rw [r0.2.2.1]
    exact List.nodup_range _
  have henq : GameAnimations.enqueuedOf s1.trace
      = GameAnimations.startedOf s.trace ++ s1.animationQueue := by
    rw [r0.1, hst]
  have hsub : ∀ x, x ∈ GameAnimations.resolvedOf s.trace → x ∈ GameAnimations.startedOf s.trace := by
    intro x hx
    rw [hinv.2.1] at hx
    rw [hB.2.2.1]
    exact List.mem_append_left _ hx
  refine ⟨r1.1, r1.2.1, ?_, hp, hst, hre, henq, ?_⟩
  · rw [hre, hinv.2.1]
    intro hres
    rw [hB.2.2.1] at hsn
    exact (List.nodup_append.mp hsn).2.2 hres (by simp)
  · intro x hx
    rw [henq] at hen
    have hd := (List.nodup_append.mp hen).2.2
    refine ⟨?_, ?_⟩
    · rw [hst]
      exact fun hxs => hd hxs hx
    · rw [hre]
      exact fun hxr => hd (hsub x hxr) hx

/-- C7 on a run: the first of two tasks throws; a third task is pushed and settlements
arrive, and still nothing is started or resolved and both later entries stay pending. -/
theorem GameAnimations.throw_stalls_witness :
    (GameAnimations.run (GameAnimations.step (GameAnimations.run GameAnimations.new
        [QueueAction.enqueue 7, QueueAction.enqueue 8]) (QueueAction.reject 0))
      [QueueAction.enqueue 9, QueueAction.settle 1, QueueAction.settle 2]).isAnimating = true ∧
    GameAnimations.resolvedOf (GameAnimations.run (GameAnimations.step
        (GameAnimations.run GameAnimations.new [QueueAction.enqueue 7, QueueAction.enqueue 8])
        (QueueAction.reject 0))
      [QueueAction.enqueue 9, QueueAction.settle 1, QueueAction.settle 2]).trace = [] ∧
    (GameAnimations.run (GameAnimations.step (GameAnimations.run GameAnimations.new
        [QueueAction.enqueue 7, QueueAction.enqueue 8]) (QueueAction.reject 0))
      [QueueAction.enqueue 9, QueueAction.settle 1, QueueAction.settle 2]).animationQueue
      = [{ func := 8, resolve := 1 }, { func := 9, resolve := 2 }] := by
  have h := GameAnimations.throw_stalls [QueueAction.enqueue 7, QueueAction.enqueue 8]
    [QueueAction.enqueue 9, QueueAction.settle 1, QueueAction.settle 2]
    { func := 7, resolve := 0 } (by decide)
  exact ⟨h.1, h.2.2.2.2.2.1.trans (by decide), by decide⟩

/-! ### Timing -/

theorem GameAnimations.enqueue_all_animating (fs : List Nat) (s : GameAnimations)
    (ha : s.isAnimating = true) :
    (GameAnimations.run s (fs.map QueueAction.enqueue)).isAnimating = true ∧
    (GameAnimations.run s (fs.map QueueAction.enqueue)).awaiting = s.awaiting ∧
    (GameAnimations.run s (fs.map QueueAction.enqueue)).now = s.now ∧
    (GameAnimations.run s (fs.map QueueAction.enqueue)).animationQueue
      = s.animationQueue ++ GameAnimations.entriesFrom s.promises fs ∧
    GameAnimations.startTimes (GameAnimations.run s (fs.map QueueAction.enqueue)).trace
      = GameAnimations.startTimes s.trace ∧
    GameAnimations.resolveTimes (GameAnimations.run s (fs.map QueueAction.enqueue)).trace
      = GameAnimations.resolveTimes s.trace := by
  induction fs generalizing s with
  | nil => simp [GameAnimations.run, GameAnimations.entriesFrom, ha]
  | cons f fs ih =>
    have hstep : GameAnimations.step s (QueueAction.enqueue f) =
        { s with
          animationQueue := s.animationQueue ++ [{ func := f, resolve := s.promises }]
          promises := s.promises + 1
          trace := s.trace ++ [(s.now, Ev.enqueued { func := f, resolve := s.promises })] } := by
      simp [GameAnimations.step, GameAnimations.queueAnimation, ha]
    have hrun : GameAnimations.run s ((f :: fs).map QueueAction.enqueue)
        = GameAnimations.run (GameAnimations.step s (QueueAction.enqueue f))
            (fs.map QueueAction.enqueue) := rfl
    rw [hrun, hstep]
    obtain ⟨i1, i2, i3, i4, i5, i6⟩ := ih
      { s with
        animationQueue := s.animationQueue ++ [{ func := f, resolve := s.promises }]
        promises := s.promises + 1
        trace := s.trace ++ [(s.now, Ev.enqueued { func := f, resolve := s.promises })] } ha
    refine ⟨i1, i2, i3, ?_, ?_, ?_⟩
    · rw [i4]
      simp [GameAnimations.entriesFrom]
    · rw [i5]
      simp [GameAnimations.startTimes_append, GameAnimations.startTimes_cons,
        GameAnimations.startTimes_nil]
    · rw [i6]
      simp [GameAnimations.resolveTimes_append, GameAnimations.resolveTimes_cons,
        GameAnimations.resolveTimes_nil]

theorem GameAnimations.drainTimed_awaiting (dur : Nat → Nat) (fuel : Nat) (s : GameAnimations)
    (e : QueueEntry) (hw : s.awaiting = [e]) (hfuel : s.animationQueue.length + 1 ≤ fuel) :
    GameAnimations.startTimes (GameAnimations.drainTimed dur fuel s).trace
      = GameAnimations.startTimes s.trace
          ++ GameAnimations.startsFrom dur (s.now + dur e.func) s.animationQueue ∧
    GameAnimations.resolveTimes (GameAnimations.drainTimed dur fuel s).trace
      = GameAnimations.resolveTimes s.trace
          ++ GameAnimations.endsFrom dur s.now (e :: s.animationQueue) := by
  induction fuel generalizing s e with
  | zero => omega
  | succ n ih =>
    have hstep : GameAnimations.drainTimed dur (n + 1) s
        = GameAnimations.drainTimed dur n
            (GameAnimations.step (GameAnimations.step s (QueueAction.advance (dur e.func)))
              (QueueAction.settle e.resolve)) := by
      simp [GameAnimations.drainTimed, hw]
    have hadv : GameAnimations.step s (QueueAction.advance (dur e.func))
        = { s with now := s.now + dur e.func } := rfl
    rw [hstep, hadv]
    rcases GameAnimations.settle_awaiting { s with now := s.now + dur e.func } e hw with
      ⟨hq, hs1⟩ | ⟨e1, rest, hq, hs1⟩
    · dsimp only at hq hs1
      rw [hs1]
      have hnil : GameAnimations.drainTimed dur n
          { s with
            now := s.now + dur e.func
            isAnimating := false
            awaiting := []
            trace := s.trace ++ [(s.now + dur e.func, Ev.completed e),
              (s.now + dur e.func, Ev.resolved e), (s.now + dur e.func, Ev.foundEmpty)] }
          = { s with
            now := s.now + dur e.func
            isAnimating := false
            awaiting := []
            trace := s.trace ++ [(s.now + dur e.func, Ev.completed e),
              (s.now + dur e.func, Ev.resolved e), (s.now + dur e.func, Ev.foundEmpty)] } := by
        cases n with
        | zero => rfl
        | succ m => simp [GameAnimations.drainTimed]
      rw [hnil, hq]
      simp [GameAnimations.startTimes_append, GameAnimations.startTimes_cons,
        GameAnimations.startTimes_nil, GameAnimations.resolveTimes_append,
        GameAnimations.resolveTimes_cons, GameAnimations.resolveTimes_nil,
        GameAnimations.startsFrom, GameAnimations.endsFrom]
    · dsimp only at hq hs1
      rw [hs1]
      have hl : rest.length + 1 ≤ n := by
        rw [hq] at hfuel
        simp at hfuel
        omega
      obtain ⟨i1, i2⟩ := ih
        { s with
          now := s.now + dur e.func
          isAnimating := true
          animationQueue := rest
          awaiting := [e1]
          trace := s.trace ++ [(s.now + dur e.func, Ev.completed e),
            (s.now + dur e.func, Ev.resolved e), (s.now + dur e.func, Ev.started e1)] }
        e1 rfl (by simpa using hl)
      rw [i1, i2, hq]
      simp [GameAnimations.startTimes_append, GameAnimations.startTimes_cons,
        GameAnimations.startTimes_nil, GameAnimations.resolveTimes_append,
        GameAnimations.resolveTimes_cons, GameAnimations.resolveTimes_nil,
        GameAnimations.startsFrom, GameAnimations.endsFrom]

theorem GameAnimations.entriesFrom_length (n : Nat) (fs : List Nat) :
    (GameAnimations.entriesFrom n fs).length = fs.length := by
  induction fs generalizing n with
  | nil => rfl
  | cons f fs ih => simp [GameAnimations.entriesFrom, ih]

theorem GameAnimations.startsFrom_length (dur : Nat → Nat) (t : Nat) (es : List QueueEntry) :
    (GameAnimations.startsFrom dur t es).length = es.length := by
  induction es generalizing t with
  | nil => rfl
  | cons e es ih => simp [GameAnimations.startsFrom, ih]

theorem GameAnimations.endsFrom_length (dur : Nat → Nat) (t : Nat) (es : List QueueEntry) :
    (GameAnimations.endsFrom dur t es).length = es.length := by
  induction es generalizing t with
  | nil => rfl
  | cons e es ih => simp [GameAnimations.endsFrom, ih]

theorem GameAnimations.startsFrom_get (dur : Nat → Nat) (fs : List Nat) (t n k : Nat)
    (hk : k < fs.length) :
    (GameAnimations.startsFrom dur t (GameAnimations.entriesFrom n fs)).get? k
      = some ({ func := fs[k], resolve := n + k }, t + ((fs.take k).map dur).sum) := by
  induction fs generalizing t n k with
  | nil => simp at hk
  | cons f fs ih =>
    cases k with
    | zero => simp [GameAnimations.startsFrom, GameAnimations.entriesFrom]
    | succ k =>
      have hk1 : k < fs.length := by simpa using hk
      have := ih (t + dur f) (n + 1) k hk1
      simp only [GameAnimations.startsFrom, GameAnimations.entriesFrom, List.get?_cons_succ,
        List.getElem_cons_succ, List.take_succ_cons, List.map_cons, List.sum_cons] at this ⊢
      rw [this]
      simp only [Option.some.injEq, Prod.mk.injEq, QueueEntry.mk.injEq, true_and]
      omega

theorem GameAnimations.endsFrom_get (dur : Nat → Nat) (fs : List Nat) (t n k : Nat)
    (hk : k < fs.length) :
    (GameAnimations.endsFrom dur t (GameAnimations.entriesFrom n fs)).get? k
      = some ({ func := fs[k], resolve := n + k }, t + ((fs.take (k + 1)).map dur).sum) := by
  induction fs generalizing t n k with
  | nil => simp at hk
  | cons f fs ih =>
    cases k with
    | zero => simp [GameAnimations.endsFrom, GameAnimations.entriesFrom]
    | succ k =>
      have hk1 : k < fs.length := by simpa using hk
      have := ih (t + dur f) (n + 1) k hk1
      simp only [GameAnimations.endsFrom, GameAnimations.entriesFrom, List.get?_cons_succ,
        List.getElem_cons_succ, List.take_succ_cons, List.map_cons, List.sum_cons] at this ⊢
      rw [this]
      simp only [Option.some.injEq, Prod.mk.injEq, QueueEntry.mk.injEq, true_and]
      omega

theorem GameAnimations.timeline (dur : Nat → Nat) (fs : List Nat) :
    GameAnimations.startTimes (GameAnimations.drainTimed dur fs.length
        (GameAnimations.run GameAnimations.new (fs.map QueueAction.enqueue))).trace
      = GameAnimations.startsFrom dur 0 (GameAnimations.entriesFrom 0 fs) ∧
    GameAnimations.resolveTimes (GameAnimations.drainTimed dur fs.length
        (GameAnimations.run GameAnimations.new (fs.map QueueAction.enqueue))).trace
      = GameAnimations.endsFrom dur 0 (GameAnimations.entriesFrom 0 fs) := by
  cases fs with
  | nil => exact ⟨rfl, rfl⟩
  | cons f fs =>
    have hrun : GameAnimations.run GameAnimations.new ((f :: fs).map QueueAction.enqueue)
        = GameAnimations.run (GameAnimations.step GameAnimations.new (QueueAction.enqueue f))
            (fs.map QueueAction.enqueue) := rfl
    have hfirst : GameAnimations.step GameAnimations.new (QueueAction.enqueue f) =
        { animationQueue := [], isAnimating := true, awaiting := [{ func := f, resolve := 0 }],
          promises := 1, now := 0,
          trace := [(0, Ev.enqueued { func := f, resolve := 0 }),
            (0, Ev.started { func := f, resolve := 0 })] } := rfl
    obtain ⟨_, i2, i3, i4, i5, i6⟩ := GameAnimations.enqueue_all_animating fs
      (GameAnimations.step GameAnimations.new (QueueAction.enqueue f)) rfl
    rw [← hrun] at i2 i3 i4 i5 i6
    rw [hfirst] at i2 i3 i4 i5 i6
    dsimp only at i2 i3 i4 i5 i6
    obtain ⟨d1, d2⟩ := GameAnimations.drainTimed_awaiting dur (f :: fs).length
      (GameAnimations.run GameAnimations.new ((f :: fs).map QueueAction.enqueue))
      { func := f, resolve := 0 } i2
      (by rw [i4]; simp [GameAnimations.entriesFrom_length])
    rw [d1, d2, i3, i4, i5, i6]
    simp [GameAnimations.startTimes_cons, GameAnimations.startTimes_nil,
      GameAnimations.resolveTimes_cons, GameAnimations.resolveTimes_nil,
      GameAnimations.startsFrom, GameAnimations.endsFrom, GameAnimations.entriesFrom]

/-- C6: when the tasks `fs` are all passed to `queueAnimation` at time 0 on a fresh queue
and the effect of task `f` lasts `dur f` milliseconds, then all of them are started and
resolved, and the `k`-th task (counted from 0) is started at the sum of the durations of
the tasks before it and its promise is resolved at that sum plus its own duration. -/
theorem GameAnimations.timing (dur : Nat → Nat) (fs : List Nat) (k : Nat) (hk : k < fs.length) :
    (let s := GameAnimations.drainTimed dur fs.length
      (GameAnimations.run GameAnimations.new (fs.map QueueAction.enqueue))
    (GameAnimations.startTimes s.trace).get? k
      = some ({ func := fs[k], resolve := k }, ((fs.take k).map dur).sum) ∧
    (GameAnimations.resolveTimes s.trace).get? k
      = some ({ func := fs[k], resolve := k }, ((fs.take (k + 1)).map dur).sum) ∧
    (GameAnimations.startTimes s.trace).length = fs.length ∧
    (GameAnimations.resolveTimes s.trace).length = fs.length) := by
  intro s
  obtain ⟨h1, h2⟩ := GameAnimations.timeline dur fs
  have hs1 : GameAnimations.startTimes s.trace
      = GameAnimations.startsFrom dur 0 (GameAnimations.entriesFrom 0 fs) := h1
  have hs2 : GameAnimations.resolveTimes s.trace
      = GameAnimations.endsFrom dur 0 (GameAnimations.entriesFrom 0 fs) := h2
  rw [hs1, hs2]
  refine ⟨?_, ?_, ?_, ?_⟩
  · simpa using GameAnimations.startsFrom_get dur fs 0 0 k hk
  · simpa using GameAnimations.endsFrom_get dur fs 0 0 k hk
  · rw [GameAnimations.startsFrom_length, GameAnimations.entriesFrom_length]
  · rw [GameAnimations.endsFrom_length, GameAnimations.entriesFrom_length]

/-- C6 on the example of the specification: A (500 ms) then B (100 ms), both enqueued at
time 0: B is started at 500 ms, when A is resolved, and B is resolved at 600 ms. -/
theorem GameAnimations.timing_witness :
    (GameAnimations.startTimes (GameAnimations.drainTimed (fun f => if f = 0 then 500 else 100) 2
        (GameAnimations.run GameAnimations.new
          [QueueAction.enqueue 0, QueueAction.enqueue 1])).trace).get? 1
      = some ({ func := 1, resolve := 1 }, 500) ∧
    (GameAnimations.resolveTimes (GameAnimations.drainTimed (fun f => if f = 0 then 500 else 100) 2
        (GameAnimations.run GameAnimations.new
          [QueueAction.enqueue 0, QueueAction.enqueue 1])).trace)
      = [({ func := 0, resolve := 0 }, 500), ({ func := 1, resolve := 1 }, 600)] := by
  have h := GameAnimations.timing (fun f => if f = 0 then 500 else 100) [0, 1] 1 (by decide)
  exact ⟨h.1, by decide⟩
